import Mathlib

/-!
# Metrics derivation of `examples/wifi-simple.cc`

Shallow embedding of the per-flow metrics derivation and of the CSV writer in
`main` of `examples/wifi-simple.cc` (lines 110-169).

Numeric model.  A C++ `double` is modelled by `Dbl`: a rational, or one of the
IEEE-754 special values `+inf`, `-inf`, `NaN`.  An IEEE-754 operation is its
infinitely precise result (`Dbl.sub`, `Dbl.mul`, `Dbl.div`) followed by the
rounding to binary64 (`Dbl.fl`).  The derivations are given twice:

* `Console.pdr`, `Console.throughput`, `Console.delay`, `Csv.pdr`,
  `Csv.throughput`, `Csv.delay` leave the rounding steps out; they decide where
  `NaN`, an infinity, a negative number or a truncated integer quotient arises,
  none of which depends on rounding;
* `Console.pdr64`, `Console.throughput64`, `Console.delay64`, `Csv.pdr64`,
  `Csv.throughput64`, `Csv.delay64` round every conversion and every operation
  to binary64 (to nearest, ties to even, with subnormal numbers and overflow),
  as the program does.

The sign of zero is not modelled; every zero divisor occurring in the program
is `+0.0` (a converted unsigned counter, or `x - 1.0` with `x = 1.0`).  The
unsigned counters of `FlowStats` are natural numbers, and the `int64_t`
returned by `delaySum.GetMilliSeconds()` is an integer; the program does no
integer arithmetic in which a machine integer could wrap.
-/

namespace WifiSimple

/-- Value of a C++ `double`: a rational or an IEEE-754 special value. -/
inductive Dbl where
  | fin (q : ℚ)
  | pinf
  | ninf
  | nan
  deriving DecidableEq

namespace Dbl

/-- Conversion of an unsigned integer to `double`, rounding left out. -/
def ofNat (n : Nat) : Dbl := fin (n : ℚ)

/-- Conversion of a signed integer to `double`, rounding left out. -/
def ofInt (z : Int) : Dbl := fin (z : ℚ)

/-- IEEE-754 subtraction: the infinitely precise result, before rounding. -/
def sub : Dbl → Dbl → Dbl
  | fin a, fin b => fin (a - b)
  | nan, _ => nan
  | _, nan => nan
  | pinf, pinf => nan
  | ninf, ninf => nan
  | pinf, _ => pinf
  | ninf, _ => ninf
  | fin _, pinf => ninf
  | fin _, ninf => pinf

/-- IEEE-754 multiplication: the infinitely precise result, before rounding. -/
def mul : Dbl → Dbl → Dbl
  | fin a, fin b => fin (a * b)
  | nan, _ => nan
  | _, nan => nan
  | pinf, fin b => if 0 < b then pinf else if b < 0 then ninf else nan
  | ninf, fin b => if 0 < b then ninf else if b < 0 then pinf else nan
  | fin a, pinf => if 0 < a then pinf else if a < 0 then ninf else nan
  | fin a, ninf => if 0 < a then ninf else if a < 0 then pinf else nan
  | pinf, pinf => pinf
  | pinf, ninf => ninf
  | ninf, pinf => ninf
  | ninf, ninf => pinf

/-- IEEE-754 division: the infinitely precise result, before rounding; a zero
divisor is `+0.0`. -/
def div : Dbl → Dbl → Dbl
  | fin a, fin b =>
    if b = 0 then (if 0 < a then pinf else if a < 0 then ninf else nan)
    else fin (a / b)
  | nan, _ => nan
  | _, nan => nan
  | fin _, pinf => fin 0
  | fin _, ninf => fin 0
  | pinf, fin b => if b < 0 then ninf else pinf
  | ninf, fin b => if b < 0 then pinf else ninf
  | pinf, pinf => nan
  | pinf, ninf => nan
  | ninf, pinf => nan
  | ninf, ninf => nan

end Dbl

/-- Command-line parameters of `main` that reach the reported values
(`distance`, `simulationTime`; both `double`). -/
structure Config where
  distance : ℚ
  simulationTime : ℚ

/-- Start time of the client application, `clientApps.Start(Seconds(1.0))`. -/
def clientStart : ℚ := 1

/-- Stop time of the client application, `clientApps.Stop(Seconds(simulationTime))`. -/
def clientStop (cfg : Config) : ℚ := cfg.simulationTime

/-- Stop time of the simulator, `Simulator::Stop(Seconds(simulationTime + 1.0))`. -/
def simulatorStop (cfg : Config) : ℚ := cfg.simulationTime + 1

/-- Fields of `FlowMonitor::FlowStats` read by `main`.  `delaySumMs` is the
`int64_t` returned by `flowStats.delaySum.GetMilliSeconds()`. -/
structure FlowStats where
  txPackets : Nat
  rxPackets : Nat
  lostPackets : Nat
  rxBytes : Nat
  delaySumMs : Int

/-- Fields of `Ipv4FlowClassifier::FiveTuple` read by `main`. -/
structure FiveTuple where
  sourceAddress : Nat
  destinationAddress : Nat

/-- The `FlowStatsContainer` is a `std::map<FlowId, FlowStats>`: iterating it
visits the entries in strictly ascending `FlowId` order. -/
structure FlowStatsContainer where
  entries : List (Nat × FlowStats)
  ascending : entries.Pairwise (fun a b => a.1 < b.1)

/-! ## Per-flow derivation of the console loop (lines 122-140), rounding left out -/

namespace Console

/-- Line 126: `double txPackets = flowStats.txPackets;` -/
def txPackets (fs : FlowStats) : Dbl := Dbl.ofNat fs.txPackets

/-- Line 127: `double rxPackets = flowStats.rxPackets;` -/
def rxPackets (fs : FlowStats) : Dbl := Dbl.ofNat fs.rxPackets

/-- Line 128: `double lostPackets = flowStats.lostPackets;` -/
def lostPackets (fs : FlowStats) : Dbl := Dbl.ofNat fs.lostPackets

/-- Line 129: `double pdr = (rxPackets / txPackets) * 100.0;` -/
def pdr (fs : FlowStats) : Dbl :=
  Dbl.mul (Dbl.div (rxPackets fs) (txPackets fs)) (Dbl.fin 100)

/-- Line 130:
`double throughput = (flowStats.rxBytes * 8.0) / (simulationTime - 1.0) / 1000.0;` -/
def throughput (cfg : Config) (fs : FlowStats) : Dbl :=
  Dbl.div
    (Dbl.div (Dbl.mul (Dbl.ofNat fs.rxBytes) (Dbl.fin 8))
      (Dbl.sub (Dbl.fin cfg.simulationTime) (Dbl.fin 1)))
    (Dbl.fin 1000)

/-- Line 131: `double delay = flowStats.delaySum.GetMilliSeconds() / rxPackets;`
(the `int64_t` is converted to `double`, the division is a `double` division). -/
def delay (fs : FlowStats) : Dbl :=
  Dbl.div (Dbl.ofInt fs.delaySumMs) (rxPackets fs)

end Console

/-! ## Per-flow derivation of the CSV loop (lines 155-167), rounding left out -/

namespace Csv

/-- Line 157:
`double pdr = (flowStats.rxPackets / (double)flowStats.txPackets) * 100.0;` -/
def pdr (fs : FlowStats) : Dbl :=
  Dbl.mul (Dbl.div (Dbl.ofNat fs.rxPackets) (Dbl.ofNat fs.txPackets)) (Dbl.fin 100)

/-- Line 158:
`double throughput = (flowStats.rxBytes * 8.0) / (simulationTime - 1.0) / 1000.0;` -/
def throughput (cfg : Config) (fs : FlowStats) : Dbl :=
  Dbl.div
    (Dbl.div (Dbl.mul (Dbl.ofNat fs.rxBytes) (Dbl.fin 8))
      (Dbl.sub (Dbl.fin cfg.simulationTime) (Dbl.fin 1)))
    (Dbl.fin 1000)

/-- Line 159: `double delay = flowStats.delaySum.GetMilliSeconds() / flowStats.rxPackets;`
Both operands are integers (`int64_t` and `uint32_t`), so this is the signed
64-bit integer division, truncating toward zero, whose quotient is then
converted to `double`.  Integer division by zero is undefined behaviour:
`none`. -/
def delay (fs : FlowStats) : Option Dbl :=
  if fs.rxPackets = 0 then none
  else some (Dbl.ofInt (Int.tdiv fs.delaySumMs (fs.rxPackets : Int)))

end Csv

/-! ## Output streams

An output stream is modelled by the sequence of items inserted into it with
`<<`; the conversion of a number to text is not modelled.  Every item renders
to at least one character, so a file is empty exactly when no item has been
written to it. -/

/-- One operand of a stream insertion `<<`. -/
inductive Item where
  | text (s : String)
  | dbl (v : Dbl)
  | u32 (n : Nat)
  | addr (a : Nat)
  deriving DecidableEq

/-- The items of a stream that are not string literals: its reported values,
in the order written. -/
def values : List Item → List Item
  | [] => []
  | Item.text _ :: rest => values rest
  | v :: rest => v :: values rest

/-- The value written directly after the string literal `label`, if any. -/
def shown (label : String) : List Item → Option Item
  | [] => none
  | Item.text s :: rest =>
    match rest with
    | [] => none
    | v :: _ => if s = label then some v else shown label rest
  | _ :: rest => shown label rest

namespace Console

/-- Lines 124-139: the summary block printed to `std::cout` for one flow.
`findFlow` stands for `classifier->FindFlow`. -/
def block (cfg : Config) (findFlow : Nat → FiveTuple) (flowId : Nat) (fs : FlowStats) :
    List Item :=
  let t := findFlow flowId
  [Item.text "Flow ", Item.u32 flowId, Item.text " (", Item.addr t.sourceAddress,
   Item.text " -> ", Item.addr t.destinationAddress, Item.text ")\n",
   Item.text "  Tx Packets: ", Item.dbl (txPackets fs), Item.text "\n",
   Item.text "  Rx Packets: ", Item.dbl (rxPackets fs), Item.text "\n",
   Item.text "  Lost Packets: ", Item.dbl (lostPackets fs), Item.text "\n",
   Item.text "  PDR: ", Item.dbl (pdr fs), Item.text " %\n",
   Item.text "  Throughput: ", Item.dbl (throughput cfg fs), Item.text " kbps\n",
   Item.text "  Average Delay: ", Item.dbl (delay fs), Item.text " ms\n"]

/-- Lines 115-142: the whole console summary, one block per flow in the
iteration order of the container. -/
def summary (cfg : Config) (findFlow : Nat → FiveTuple) (stats : FlowStatsContainer) :
    List Item :=
  [Item.text "\n========================================\n",
   Item.text "  Wi-Fi Simple Simulation Results\n",
   Item.text "========================================\n",
   Item.text "Distance: ", Item.dbl (Dbl.fin cfg.distance), Item.text " m\n",
   Item.text "Simulation Time: ", Item.dbl (Dbl.fin cfg.simulationTime), Item.text " s\n",
   Item.text "----------------------------------------\n"]
  ++ stats.entries.flatMap (fun e => block cfg findFlow e.1 e.2)
  ++ [Item.text "========================================\n\n"]

end Console

namespace Csv

/-- Line 152: the header line. -/
def header : Item := Item.text "Distance,TxPackets,RxPackets,PDR,Throughput_kbps,Delay_ms\n"

/-- Lines 161-166: the items of one data line, given the `delay` computed at
line 159. -/
def line (cfg : Config) (fs : FlowStats) (delay : Dbl) : List Item :=
  [Item.dbl (Dbl.fin cfg.distance), Item.text ",",
   Item.u32 fs.txPackets, Item.text ",",
   Item.u32 fs.rxPackets, Item.text ",",
   Item.dbl (pdr fs), Item.text ",",
   Item.dbl (throughput cfg fs), Item.text ",",
   Item.dbl delay, Item.text "\n"]

/-- Lines 157-166: one iteration of the CSV loop, appending the data line of
the flow to the file; `none` when the integer division of line 159 is undefined. -/
def writeFlow (cfg : Config) (file : List Item) (fs : FlowStats) : Option (List Item) :=
  match delay fs with
  | none => none
  | some d => some (file ++ line cfg fs d)

/-- Lines 155-167: the CSV loop over the container. -/
def writeFlows (cfg : Config) : List Item → List (Nat × FlowStats) → Option (List Item)
  | file, [] => some file
  | file, e :: rest =>
    match writeFlow cfg file e.2 with
    | none => none
    | some file1 => writeFlows cfg file1 rest

/-- Lines 145-169: the "Save to CSV" step on a results file whose current
contents are `file`.  `isOpen` is the outcome of `csvFile.is_open()`; the stream
is opened in append mode, so `tellp()` after `seekp(0, end)` is `0` exactly
when the file is empty. -/
def save (isOpen : Bool) (cfg : Config) (stats : FlowStatsContainer) (file : List Item) :
    Option (List Item) :=
  if isOpen then
    writeFlows cfg (if file = [] then file ++ [header] else file) stats.entries
  else some file

/-- The data line written for a flow whose integer division is defined
(`rxPackets ≠ 0`). -/
def dataLine (cfg : Config) (fs : FlowStats) : List Item :=
  line cfg fs (Dbl.ofInt (Int.tdiv fs.delaySumMs (fs.rxPackets : Int)))

end Csv

/-- One execution of the program, as far as the results file is concerned:
its parameters and the flow statistics it collected. -/
structure Run where
  cfg : Config
  stats : FlowStatsContainer

/-- One program run as an append step on the results file: the "Save to CSV"
step of a run whose stream opens; `none` when the step has no defined result. -/
def Run.step (file : List Item) (r : Run) : Option (List Item) :=
  Csv.save true r.cfg r.stats file

/-- The results file after a sequence of runs. -/
def runAll : List Item → List Run → Option (List Item)
  | file, [] => some file
  | file, r :: rest =>
    match r.step file with
    | none => none
    | some file1 => runAll file1 rest

/-- The data lines of one run. -/
def Run.batch (r : Run) : List Item :=
  r.stats.entries.flatMap (fun e => Csv.dataLine r.cfg e.2)

end WifiSimple

/-! ## Binary64 rounding -/

namespace WifiSimple

/-- Rounding of a rational to the nearest integer, a tie going to the even
integer. -/
def roundEven (m : ℚ) : ℤ :=
  if m - ⌊m⌋ < 1 / 2 then ⌊m⌋
  else if 1 / 2 < m - ⌊m⌋ then ⌊m⌋ + 1
  else if ⌊m⌋ % 2 = 0 then ⌊m⌋ else ⌊m⌋ + 1

namespace Dbl

/-- Exponent of the spacing of the binary64 numbers around `x`: 53 significant
bits, and `2 ^ (-1074)` as the smallest spacing (subnormal range). -/
def ulpExp (x : ℚ) : ℤ := max (Int.log 2 |x| - 52) (-1074)

/-- Binary64 rounding of an infinitely precise result: to nearest, ties to
even; a rounded magnitude of `2 ^ 1024` or more overflows to an infinity. -/
def roundNearest (x : ℚ) : Dbl :=
  if (2 : ℚ) ^ (1024 : ℤ) ≤ (roundEven (x / 2 ^ ulpExp x) : ℚ) * 2 ^ ulpExp x then pinf
  else if (roundEven (x / 2 ^ ulpExp x) : ℚ) * 2 ^ ulpExp x ≤ -(2 : ℚ) ^ (1024 : ℤ) then ninf
  else fin ((roundEven (x / 2 ^ ulpExp x) : ℚ) * 2 ^ ulpExp x)

/-- Rounding step of an IEEE-754 operation, applied to its infinitely precise
result. -/
def fl : Dbl → Dbl
  | fin q => roundNearest q
  | pinf => pinf
  | ninf => ninf
  | nan => nan

/-- A rational that is a binary64 number: rounding leaves it unchanged. -/
def IsBinary64 (x : ℚ) : Prop := roundNearest x = fin x

instance (x : ℚ) : Decidable (IsBinary64 x) := by
  unfold IsBinary64
  infer_instance

/-- Conversion of an unsigned integer (`uint32_t`, `uint64_t`) to `double`,
rounded. -/
def ofNat64 (n : Nat) : Dbl := roundNearest (n : ℚ)

/-- Conversion of a signed integer (`int64_t`) to `double`, rounded. -/
def ofInt64 (z : Int) : Dbl := roundNearest (z : ℚ)

/-- Binary64 subtraction: the infinitely precise difference, rounded. -/
def sub64 (a b : Dbl) : Dbl := fl (sub a b)

/-- Binary64 multiplication: the infinitely precise product, rounded. -/
def mul64 (a b : Dbl) : Dbl := fl (mul a b)

/-- Binary64 division: the infinitely precise quotient, rounded. -/
def div64 (a b : Dbl) : Dbl := fl (div a b)

end Dbl


/-! ## The derivations in binary64 arithmetic

Every conversion and every operation of lines 126-131 and 157-159 rounded to
binary64, and the two output streams built from the rounded values. -/

namespace Console

/-- Line 126 in binary64: `double txPackets = flowStats.txPackets;` -/
def txPackets64 (fs : FlowStats) : Dbl := Dbl.ofNat64 fs.txPackets

/-- Line 127 in binary64: `double rxPackets = flowStats.rxPackets;` -/
def rxPackets64 (fs : FlowStats) : Dbl := Dbl.ofNat64 fs.rxPackets

/-- Line 128 in binary64: `double lostPackets = flowStats.lostPackets;` -/
def lostPackets64 (fs : FlowStats) : Dbl := Dbl.ofNat64 fs.lostPackets

/-- Line 129 in binary64: `double pdr = (rxPackets / txPackets) * 100.0;` -/
def pdr64 (fs : FlowStats) : Dbl :=
  Dbl.mul64 (Dbl.div64 (rxPackets64 fs) (txPackets64 fs)) (Dbl.fin 100)

/-- Line 130 in binary64:
`double throughput = (flowStats.rxBytes * 8.0) / (simulationTime - 1.0) / 1000.0;` -/
def throughput64 (cfg : Config) (fs : FlowStats) : Dbl :=
  Dbl.div64
    (Dbl.div64 (Dbl.mul64 (Dbl.ofNat64 fs.rxBytes) (Dbl.fin 8))
      (Dbl.sub64 (Dbl.fin cfg.simulationTime) (Dbl.fin 1)))
    (Dbl.fin 1000)

/-- Line 131 in binary64:
`double delay = flowStats.delaySum.GetMilliSeconds() / rxPackets;` -/
def delay64 (fs : FlowStats) : Dbl :=
  Dbl.div64 (Dbl.ofInt64 fs.delaySumMs) (rxPackets64 fs)

/-- Lines 124-139 in binary64: the summary block printed for one flow. -/
def block64 (cfg : Config) (findFlow : Nat → FiveTuple) (flowId : Nat) (fs : FlowStats) :
    List Item :=
  let t := findFlow flowId
  [Item.text "Flow ", Item.u32 flowId, Item.text " (", Item.addr t.sourceAddress,
   Item.text " -> ", Item.addr t.destinationAddress, Item.text ")\n",
   Item.text "  Tx Packets: ", Item.dbl (txPackets64 fs), Item.text "\n",
   Item.text "  Rx Packets: ", Item.dbl (rxPackets64 fs), Item.text "\n",
   Item.text "  Lost Packets: ", Item.dbl (lostPackets64 fs), Item.text "\n",
   Item.text "  PDR: ", Item.dbl (pdr64 fs), Item.text " %\n",
   Item.text "  Throughput: ", Item.dbl (throughput64 cfg fs), Item.text " kbps\n",
   Item.text "  Average Delay: ", Item.dbl (delay64 fs), Item.text " ms\n"]

end Console

namespace Csv

/-- Line 157 in binary64:
`double pdr = (flowStats.rxPackets / (double)flowStats.txPackets) * 100.0;` -/
def pdr64 (fs : FlowStats) : Dbl :=
  Dbl.mul64 (Dbl.div64 (Dbl.ofNat64 fs.rxPackets) (Dbl.ofNat64 fs.txPackets)) (Dbl.fin 100)

/-- Line 158 in binary64:
`double throughput = (flowStats.rxBytes * 8.0) / (simulationTime - 1.0) / 1000.0;` -/
def throughput64 (cfg : Config) (fs : FlowStats) : Dbl :=
  Dbl.div64
    (Dbl.div64 (Dbl.mul64 (Dbl.ofNat64 fs.rxBytes) (Dbl.fin 8))
      (Dbl.sub64 (Dbl.fin cfg.simulationTime) (Dbl.fin 1)))
    (Dbl.fin 1000)

/-- Line 159 in binary64: the signed 64-bit integer quotient, truncated toward
zero, converted to `double`; `none` when the divisor `rxPackets` is zero
(undefined behaviour). -/
def delay64 (fs : FlowStats) : Option Dbl :=
  if fs.rxPackets = 0 then none
  else some (Dbl.ofInt64 (Int.tdiv fs.delaySumMs (fs.rxPackets : Int)))

/-- Lines 161-166 in binary64: the items of one data line, given the `delay`
computed at line 159. -/
def line64 (cfg : Config) (fs : FlowStats) (delay : Dbl) : List Item :=
  [Item.dbl (Dbl.fin cfg.distance), Item.text ",",
   Item.u32 fs.txPackets, Item.text ",",
   Item.u32 fs.rxPackets, Item.text ",",
   Item.dbl (pdr64 fs), Item.text ",",
   Item.dbl (throughput64 cfg fs), Item.text ",",
   Item.dbl delay, Item.text "\n"]

/-- Lines 157-166 in binary64: one iteration of the CSV loop. -/
def writeFlow64 (cfg : Config) (file : List Item) (fs : FlowStats) : Option (List Item) :=
  match delay64 fs with
  | none => none
  | some d => some (file ++ line64 cfg fs d)

end Csv

end WifiSimple

/-! ## Auxiliary lemmas -/

namespace WifiSimple

theorem Dbl.div_fin_of_ne (a b : ℚ) (hb : b ≠ 0) :
    Dbl.div (Dbl.fin a) (Dbl.fin b) = Dbl.fin (a / b) := by
  simp [Dbl.div, hb]

theorem Dbl.div_zero_zero : Dbl.div (Dbl.fin 0) (Dbl.fin 0) = Dbl.nan := by
  simp [Dbl.div]

theorem Dbl.div_pos_zero (a : ℚ) (ha : 0 < a) : Dbl.div (Dbl.fin a) (Dbl.fin 0) = Dbl.pinf := by
  simp [Dbl.div, ha]

theorem Console.pdr_eq_csv (fs : FlowStats) : Console.pdr fs = Csv.pdr fs := rfl

theorem Console.throughput_eq_csv (cfg : Config) (fs : FlowStats) :
    Console.throughput cfg fs = Csv.throughput cfg fs := rfl

theorem Console.pdr_of_tx_ne_zero (fs : FlowStats) (h : fs.txPackets ≠ 0) :
    Console.pdr fs = Dbl.fin (100 * (fs.rxPackets : ℚ) / (fs.txPackets : ℚ)) := by
  have h0 : (fs.txPackets : ℚ) ≠ 0 := by exact_mod_cast h
  simp only [Console.pdr, Console.rxPackets, Console.txPackets, Dbl.ofNat]
  rw [Dbl.div_fin_of_ne _ _ h0]
  simp only [Dbl.mul]
  congr 1
  ring

theorem Console.throughput_of_ne_one (cfg : Config) (fs : FlowStats)
    (h : cfg.simulationTime ≠ 1) :
    Console.throughput cfg fs
      = Dbl.fin (8 * (fs.rxBytes : ℚ) / ((cfg.simulationTime - 1) * 1000)) := by
  have h0 : cfg.simulationTime - 1 ≠ 0 := sub_ne_zero.mpr h
  simp only [Console.throughput, Dbl.ofNat, Dbl.mul, Dbl.sub]
  rw [Dbl.div_fin_of_ne _ _ h0, Dbl.div_fin_of_ne _ _ (by norm_num)]
  congr 1
  field_simp
  ring

theorem Console.delay_of_rx_ne_zero (fs : FlowStats) (h : fs.rxPackets ≠ 0) :
    Console.delay fs = Dbl.fin ((fs.delaySumMs : ℚ) / (fs.rxPackets : ℚ)) := by
  have h0 : (fs.rxPackets : ℚ) ≠ 0 := by exact_mod_cast h
  simp only [Console.delay, Console.rxPackets, Dbl.ofNat, Dbl.ofInt]
  exact Dbl.div_fin_of_ne _ _ h0

theorem shown_delay (cfg : Config) (findFlow : Nat → FiveTuple) (flowId : Nat) (fs : FlowStats) :
    shown "  Average Delay: " (Console.block cfg findFlow flowId fs)
      = some (Item.dbl (Console.delay fs)) := by
  simp [shown, Console.block]

theorem values_line (cfg : Config) (fs : FlowStats) (d : Dbl) :
    values (Csv.line cfg fs d)
      = [Item.dbl (Dbl.fin cfg.distance), Item.u32 fs.txPackets, Item.u32 fs.rxPackets,
         Item.dbl (Csv.pdr fs), Item.dbl (Csv.throughput cfg fs), Item.dbl d] := by
  simp [values, Csv.line]

theorem Csv.writeFlow_of_rx_ne_zero (cfg : Config) (file : List Item) (fs : FlowStats)
    (h : fs.rxPackets ≠ 0) :
    Csv.writeFlow cfg file fs = some (file ++ Csv.dataLine cfg fs) := by
  simp [Csv.writeFlow, Csv.delay, Csv.dataLine, h]

theorem Csv.writeFlow_of_rx_zero (cfg : Config) (file : List Item) (fs : FlowStats)
    (h : fs.rxPackets = 0) :
    Csv.writeFlow cfg file fs = none := by
  simp [Csv.writeFlow, Csv.delay, h]

end WifiSimple

/-! ## Properties of the binary64 rounding -/

namespace WifiSimple

theorem roundEven_sub_abs_le (m : ℚ) : |(roundEven m : ℚ) - m| ≤ 1 / 2 := by
  have h1 := Int.floor_le m
  have h2 := Int.lt_floor_add_one m
  unfold roundEven
  split_ifs with ha hb hc
  · rw [abs_le]; constructor <;> linarith
  · rw [abs_le]; push_cast; constructor <;> linarith
  · rw [abs_le]; constructor <;> linarith
  · rw [abs_le]; push_cast; constructor <;> linarith

theorem roundEven_eq_of_abs_lt (m : ℚ) (n : ℤ) (h : |m - n| < 1 / 2) : roundEven m = n := by
  have h1 := roundEven_sub_abs_le m
  have h2 : |((roundEven m - n : ℤ) : ℚ)| < 1 := by
    push_cast
    have : (roundEven m : ℚ) - n = ((roundEven m : ℚ) - m) + (m - n) := by ring
    rw [this]
    calc |((roundEven m : ℚ) - m) + (m - n)| ≤ |(roundEven m : ℚ) - m| + |m - n| := abs_add _ _
      _ < 1 / 2 + 1 / 2 := by linarith
      _ = 1 := by norm_num
  have h3 : |roundEven m - n| < 1 := by exact_mod_cast h2
  have h4 := Int.abs_lt_one_iff.mp h3
  omega

theorem Dbl.log_eq_of_bounds (x : ℚ) (k : ℤ) (h1 : (2 : ℚ) ^ k ≤ |x|) (h2 : |x| < (2 : ℚ) ^ (k + 1)) :
    Int.log 2 |x| = k := by
  have hpos : 0 < |x| := lt_of_lt_of_le (by positivity) h1
  have ha : k ≤ Int.log 2 |x| := (Int.zpow_le_iff_le_log (by norm_num) hpos).mp (by exact_mod_cast h1)
  have hb : Int.log 2 |x| < k + 1 := (Int.lt_zpow_iff_log_lt (by norm_num) hpos).mp (by exact_mod_cast h2)
  omega


theorem Dbl.ulpExp_of_bounds (x : ℚ) (k : ℤ) (h1 : (2 : ℚ) ^ k ≤ |x|)
    (h2 : |x| < (2 : ℚ) ^ (k + 1)) (hk : -1022 ≤ k) : Dbl.ulpExp x = k - 52 := by
  unfold Dbl.ulpExp
  rw [Dbl.log_eq_of_bounds x k h1 h2]
  exact max_eq_left (by omega)

/-- Evaluation of the rounding at a normal number, from its binade `k` and its
rounded significand `n`. -/
theorem Dbl.roundNearest_eq (x : ℚ) (k n : ℤ) (h1 : (2 : ℚ) ^ k ≤ |x|)
    (h2 : |x| < (2 : ℚ) ^ (k + 1)) (hk : -1022 ≤ k)
    (hn : |x / 2 ^ (k - 52) - n| < 1 / 2)
    (hmax : |(n : ℚ) * 2 ^ (k - 52)| < 2 ^ (1024 : ℤ)) :
    Dbl.roundNearest x = Dbl.fin ((n : ℚ) * 2 ^ (k - 52)) := by
  unfold Dbl.roundNearest
  rw [Dbl.ulpExp_of_bounds x k h1 h2 hk, roundEven_eq_of_abs_lt _ n hn]
  rw [abs_lt] at hmax
  rw [if_neg (not_le.mpr hmax.2), if_neg (not_le.mpr hmax.1)]

theorem Dbl.roundNearest_zero : Dbl.roundNearest 0 = Dbl.fin 0 := by
  unfold Dbl.roundNearest
  have h : roundEven (0 / 2 ^ Dbl.ulpExp 0) = 0 := by
    apply roundEven_eq_of_abs_lt
    simp
  rw [h]
  have h0 : ¬ ((2 : ℚ) ^ (1024 : ℤ) ≤ 0) := not_le.mpr (by positivity)
  simp [h0]



theorem Dbl.log_lt_of_abs_lt (x : ℚ) (hx : x ≠ 0) (K : ℤ) (h : |x| < (2 : ℚ) ^ K) :
    Int.log 2 |x| < K :=
  (Int.lt_zpow_iff_log_lt (by norm_num) (abs_pos.mpr hx)).mp (by exact_mod_cast h)

theorem Dbl.zpow_log_le_abs (x : ℚ) (hx : x ≠ 0) : (2 : ℚ) ^ Int.log 2 |x| ≤ |x| := by
  have h := Int.zpow_log_le_self (b := 2) (r := |x|) (by norm_num) (abs_pos.mpr hx)
  exact_mod_cast h

/-- The rounding of a nonzero number of magnitude at most the largest binary64
number is a number, at most half a spacing away. -/
theorem Dbl.roundNearest_err (x : ℚ) (hx : x ≠ 0) (h2 : |x| ≤ (2 ^ 53 - 1) * 2 ^ 971) :
    ∃ v : ℚ, Dbl.roundNearest x = Dbl.fin v ∧ |v - x| ≤ 2 ^ Dbl.ulpExp x / 2 := by
  have h1024 : |x| < (2 : ℚ) ^ (1024 : ℤ) := lt_of_le_of_lt h2 (by norm_num)
  have hlog : Int.log 2 |x| < 1024 := Dbl.log_lt_of_abs_lt x hx 1024 h1024
  have he : Dbl.ulpExp x ≤ 971 := by
    unfold Dbl.ulpExp
    exact max_le (by omega) (by norm_num)
  have hpow : (0 : ℚ) < 2 ^ Dbl.ulpExp x := by positivity
  have hpow2 : (2 : ℚ) ^ Dbl.ulpExp x ≤ 2 ^ (971 : ℤ) :=
    zpow_le_zpow_right₀ (by norm_num) he
  have hr := roundEven_sub_abs_le (x / 2 ^ Dbl.ulpExp x)
  have herr : |(roundEven (x / 2 ^ Dbl.ulpExp x) : ℚ) * 2 ^ Dbl.ulpExp x - x|
      ≤ 2 ^ Dbl.ulpExp x / 2 := by
    have heq : (roundEven (x / 2 ^ Dbl.ulpExp x) : ℚ) * 2 ^ Dbl.ulpExp x - x
        = ((roundEven (x / 2 ^ Dbl.ulpExp x) : ℚ) - x / 2 ^ Dbl.ulpExp x)
          * 2 ^ Dbl.ulpExp x := by
      field_simp
    rw [heq, abs_mul, abs_of_pos hpow]
    calc |(roundEven (x / 2 ^ Dbl.ulpExp x) : ℚ) - x / 2 ^ Dbl.ulpExp x| * 2 ^ Dbl.ulpExp x
        ≤ 1 / 2 * 2 ^ Dbl.ulpExp x := mul_le_mul_of_nonneg_right hr hpow.le
      _ = 2 ^ Dbl.ulpExp x / 2 := by ring
  refine ⟨(roundEven (x / 2 ^ Dbl.ulpExp x) : ℚ) * 2 ^ Dbl.ulpExp x, ?_, herr⟩
  have hx2 := abs_le.mp h2
  have hb := abs_le.mp herr
  have h971 : (2 : ℚ) ^ (971 : ℤ) / 2 + (2 ^ 53 - 1) * 2 ^ 971 < 2 ^ (1024 : ℤ) := by norm_num
  unfold Dbl.roundNearest
  rw [if_neg (by rw [not_le]; linarith), if_neg (by rw [not_le]; linarith)]

theorem Dbl.ulpExp_normal (x : ℚ) (h1 : (2 : ℚ) ^ (-1022 : ℤ) ≤ |x|) :
    (2 : ℚ) ^ Dbl.ulpExp x ≤ |x| / 2 ^ 52 := by
  have hx : x ≠ 0 := by
    intro h
    rw [h, abs_zero] at h1
    exact absurd h1 (not_le.mpr (by positivity))
  have hk : -1022 ≤ Int.log 2 |x| :=
    (Int.zpow_le_iff_le_log (by norm_num) (abs_pos.mpr hx)).mp (by exact_mod_cast h1)
  have he : Dbl.ulpExp x = Int.log 2 |x| - 52 := by
    unfold Dbl.ulpExp
    exact max_eq_left (by omega)
  rw [he, zpow_sub₀ (by norm_num)]
  have h := Dbl.zpow_log_le_abs x hx
  have h52 : (2 : ℚ) ^ (52 : ℤ) = 2 ^ 52 := by norm_num
  rw [h52]
  exact div_le_div_of_nonneg_right h (by positivity)

/-- Relative error of the rounding at zero or at a normal number: the result is
`x * c` with `|c - 1| ≤ 2 ^ (-53)`. -/
theorem Dbl.roundNearest_factor (x : ℚ) (h1 : x = 0 ∨ (2 : ℚ) ^ (-1022 : ℤ) ≤ |x|)
    (h2 : |x| ≤ (2 ^ 53 - 1) * 2 ^ 971) :
    ∃ c : ℚ, Dbl.roundNearest x = Dbl.fin (x * c) ∧ |c - 1| ≤ 1 / 2 ^ 53 := by
  by_cases hx : x = 0
  · exact ⟨1, by rw [hx, Dbl.roundNearest_zero]; simp, by norm_num⟩
  · have hn : (2 : ℚ) ^ (-1022 : ℤ) ≤ |x| := h1.resolve_left hx
    obtain ⟨v, hv, herr⟩ := Dbl.roundNearest_err x hx h2
    have hu := Dbl.ulpExp_normal x hn
    have hax : 0 < |x| := abs_pos.mpr hx
    refine ⟨v / x, by rw [hv]; congr 1; field_simp, ?_⟩
    have heq : v / x - 1 = (v - x) / x := by field_simp
    rw [heq, abs_div, div_le_iff₀ hax]
    calc |v - x| ≤ 2 ^ Dbl.ulpExp x / 2 := herr
      _ ≤ |x| / 2 ^ 52 / 2 := by linarith
      _ = 1 / 2 ^ 53 * |x| := by ring


/-- Error of the rounding over the whole binary64 range, subnormal numbers
included: a relative part and the half spacing of the subnormal numbers. -/
theorem Dbl.roundNearest_err_abs (x : ℚ) (h2 : |x| ≤ (2 ^ 53 - 1) * 2 ^ 971) :
    ∃ v : ℚ, Dbl.roundNearest x = Dbl.fin v ∧ |v - x| ≤ |x| / 2 ^ 53 + 1 / 2 ^ 1075 := by
  by_cases hx : x = 0
  · refine ⟨0, by rw [hx, Dbl.roundNearest_zero], ?_⟩
    rw [hx]
    norm_num
  · obtain ⟨v, hv, herr⟩ := Dbl.roundNearest_err x hx h2
    refine ⟨v, hv, le_trans herr ?_⟩
    have hax : 0 ≤ |x| := abs_nonneg x
    have h52 : (2 : ℚ) ^ (52 : ℤ) = 2 ^ 52 := by norm_num
    have hsub : (2 : ℚ) ^ (-1074 : ℤ) = 1 / 2 ^ 1074 := by
      rw [zpow_neg, one_div]
      norm_num
    have hu : (2 : ℚ) ^ Dbl.ulpExp x ≤ |x| / 2 ^ 52 + 1 / 2 ^ 1074 := by
      unfold Dbl.ulpExp
      rcases le_total (Int.log 2 |x| - 52) (-1074) with hle | hle
      · rw [max_eq_right hle, hsub]
        have : 0 ≤ |x| / 2 ^ 52 := by positivity
        linarith
      · rw [max_eq_left hle, zpow_sub₀ (by norm_num), h52]
        have h := Dbl.zpow_log_le_abs x hx
        have h3 : (2 : ℚ) ^ Int.log 2 |x| / 2 ^ 52 ≤ |x| / 2 ^ 52 :=
          div_le_div_of_nonneg_right h (by positivity)
        have : (0 : ℚ) ≤ 1 / 2 ^ 1074 := by positivity
        linarith
    calc (2 : ℚ) ^ Dbl.ulpExp x / 2 ≤ (|x| / 2 ^ 52 + 1 / 2 ^ 1074) / 2 := by linarith
      _ = |x| / 2 ^ 53 + 1 / 2 ^ 1075 := by ring

/-- Conversion of an unsigned integer below `2 ^ 53` is exact. -/
theorem Dbl.roundNearest_natCast (n : ℕ) (h : n < 2 ^ 53) :
    Dbl.roundNearest (n : ℚ) = Dbl.fin (n : ℚ) := by
  by_cases hn : n = 0
  · rw [hn]
    simpa using Dbl.roundNearest_zero
  · have hk1 : 2 ^ Nat.log 2 n ≤ n := Nat.pow_log_le_self 2 hn
    have hk2 : n < 2 ^ (Nat.log 2 n + 1) := Nat.lt_pow_succ_log_self (by norm_num) n
    have hk : Nat.log 2 n < 53 := Nat.log_lt_of_lt_pow hn h
    have habs : |(n : ℚ)| = n := abs_of_nonneg (by positivity)
    have hp : (2 : ℚ) ^ (((Nat.log 2 n : ℕ) : ℤ) - 52) = 2 ^ Nat.log 2 n / 2 ^ 52 := by
      rw [zpow_sub₀ (by norm_num), zpow_natCast]
      norm_num
    have hsplit : (2 : ℚ) ^ (52 - Nat.log 2 n) * 2 ^ Nat.log 2 n = 2 ^ 52 := by
      rw [← pow_add]
      congr 1
      omega
    have hpos : (0 : ℚ) < 2 ^ Nat.log 2 n := by positivity
    have hval : (((n * 2 ^ (52 - Nat.log 2 n) : ℕ) : ℤ) : ℚ) * (2 ^ Nat.log 2 n / 2 ^ 52)
        = (n : ℚ) := by
      push_cast
      field_simp
      rw [mul_assoc, hsplit]
    have hr := Dbl.roundNearest_eq (n : ℚ) (Nat.log 2 n) ((n * 2 ^ (52 - Nat.log 2 n) : ℕ) : ℤ)
      (by rw [habs, zpow_natCast]; exact_mod_cast hk1)
      (by
        rw [habs]
        have : ((Nat.log 2 n : ℕ) : ℤ) + 1 = ((Nat.log 2 n + 1 : ℕ) : ℤ) := by push_cast; ring
        rw [this, zpow_natCast]
        exact_mod_cast hk2)
      (by omega)
      (by
        rw [hp]
        have : (n : ℚ) / (2 ^ Nat.log 2 n / 2 ^ 52)
            - (((n * 2 ^ (52 - Nat.log 2 n) : ℕ) : ℤ) : ℚ) = 0 := by
          push_cast
          field_simp
          have h4 : (2 : ℚ) ^ Nat.log 2 n * ((n : ℚ) * 2 ^ (52 - Nat.log 2 n))
              = (n : ℚ) * (2 ^ (52 - Nat.log 2 n) * 2 ^ Nat.log 2 n) := by ring
          rw [h4, hsplit]
          ring
        rw [this]
        norm_num)
      (by
        rw [hp, hval, habs]
        have : (n : ℚ) < 2 ^ 53 := by exact_mod_cast h
        exact lt_trans this (by norm_num))
    rw [hr, hp, hval]

theorem Dbl.ofNat64_of_lt (n : ℕ) (h : n < 2 ^ 53) : Dbl.ofNat64 n = Dbl.fin (n : ℚ) :=
  Dbl.roundNearest_natCast n h

theorem Dbl.fl_fin (q : ℚ) : Dbl.fl (Dbl.fin q) = Dbl.roundNearest q := rfl

/-- A binary64 number above 1 is at least `1 + 2 ^ (-52)` and at most the
largest binary64 number. -/
theorem Dbl.IsBinary64.bounds (x : ℚ) (hx : Dbl.IsBinary64 x) (h1 : 1 < x) :
    1 + 1 / 2 ^ 52 ≤ x ∧ x ≤ (2 ^ 53 - 1) * 2 ^ 971 := by
  have hpos : 0 < x := by linarith
  have hne : x ≠ 0 := ne_of_gt hpos
  have habs : |x| = x := abs_of_pos hpos
  unfold Dbl.IsBinary64 Dbl.roundNearest at hx
  split_ifs at hx with ha hb
  have hr : (roundEven (x / 2 ^ Dbl.ulpExp x) : ℚ) * 2 ^ Dbl.ulpExp x = x := Dbl.fin.inj hx
  have hk0 : 0 ≤ Int.log 2 |x| :=
    (Int.zpow_le_iff_le_log (by norm_num) (abs_pos.mpr hne)).mp (by rw [habs]; simpa using h1.le)
  have hlt1024 : |x| < (2 : ℚ) ^ (1024 : ℤ) := by
    rw [habs]
    rw [hr] at ha
    exact not_le.mp ha
  have hk1 : Int.log 2 |x| < 1024 := Dbl.log_lt_of_abs_lt x hne 1024 hlt1024
  have he : Dbl.ulpExp x = Int.log 2 |x| - 52 := by
    unfold Dbl.ulpExp
    exact max_eq_left (by omega)
  rw [he] at hr
  have hxlt : x < (2 : ℚ) ^ (Int.log 2 |x| + 1) := by
    have h := Int.lt_zpow_succ_log_self (b := 2) (by norm_num) (|x|)
    rw [habs] at h ⊢
    exact_mod_cast h
  have hpe : (0 : ℚ) < 2 ^ (Int.log 2 |x| - 52) := by positivity
  have h53 : (2 : ℚ) ^ (Int.log 2 |x| + 1) = 2 ^ 53 * 2 ^ (Int.log 2 |x| - 52) := by
    have : Int.log 2 |x| + 1 = 53 + (Int.log 2 |x| - 52) := by ring
    rw [this, zpow_add₀ (by norm_num)]
    norm_num
  have hnlt : (roundEven (x / 2 ^ (Int.log 2 |x| - 52)) : ℚ) < 2 ^ 53 := by
    by_contra hcon
    rw [not_lt] at hcon
    have := mul_le_mul_of_nonneg_right hcon hpe.le
    rw [hr, ← h53] at this
    linarith
  have hnle : roundEven (x / 2 ^ (Int.log 2 |x| - 52)) ≤ 2 ^ 53 - 1 := by
    have : roundEven (x / 2 ^ (Int.log 2 |x| - 52)) < 2 ^ 53 := by exact_mod_cast hnlt
    omega
  constructor
  · obtain ⟨j, hj⟩ := Int.eq_ofNat_of_zero_le hk0
    have hx52 : x * 2 ^ 52
        = ((roundEven (x / 2 ^ (Int.log 2 |x| - 52)) * 2 ^ j : ℤ) : ℚ) := by
      have hsplit : (2 : ℚ) ^ (Int.log 2 |x| - 52) * 2 ^ 52 = 2 ^ j := by
        rw [hj, zpow_sub₀ (by norm_num), zpow_natCast]
        norm_num
      push_cast
      rw [← hsplit, ← mul_assoc, hr]
    have hgt : ((2 ^ 52 : ℤ) : ℚ) < ((roundEven (x / 2 ^ (Int.log 2 |x| - 52)) * 2 ^ j : ℤ) : ℚ) := by
      rw [← hx52]
      push_cast
      linarith
    have hgt2 : (2 ^ 52 : ℤ) < roundEven (x / 2 ^ (Int.log 2 |x| - 52)) * 2 ^ j := by
      exact_mod_cast hgt
    have hge : ((2 ^ 52 + 1 : ℤ) : ℚ)
        ≤ ((roundEven (x / 2 ^ (Int.log 2 |x| - 52)) * 2 ^ j : ℤ) : ℚ) := by
      exact_mod_cast (show (2 ^ 52 + 1 : ℤ) ≤ _ from hgt2)
    rw [← hx52] at hge
    have hge2 : (2 ^ 52 + 1 : ℚ) ≤ x * 2 ^ 52 := by exact_mod_cast hge
    have h52 : (0 : ℚ) < 2 ^ 52 := by positivity
    have hfin : (2 ^ 52 + 1 : ℚ) / 2 ^ 52 ≤ x := (div_le_iff₀ h52).mpr hge2
    have hform : (1 : ℚ) + 1 / 2 ^ 52 = (2 ^ 52 + 1) / 2 ^ 52 := by norm_num
    rw [hform]
    exact hfin
  · have hn : (roundEven (x / 2 ^ (Int.log 2 |x| - 52)) : ℚ) ≤ 2 ^ 53 - 1 := by
      exact_mod_cast hnle
    have hpw : (2 : ℚ) ^ (Int.log 2 |x| - 52) ≤ 2 ^ (971 : ℤ) :=
      zpow_le_zpow_right₀ (by norm_num) (by omega)
    have h971 : (2 : ℚ) ^ (971 : ℤ) = 2 ^ 971 := by norm_num
    rw [h971] at hpw
    calc x = (roundEven (x / 2 ^ (Int.log 2 |x| - 52)) : ℚ) * 2 ^ (Int.log 2 |x| - 52) := hr.symm
      _ ≤ (2 ^ 53 - 1) * 2 ^ (Int.log 2 |x| - 52) := mul_le_mul_of_nonneg_right hn hpe.le
      _ ≤ (2 ^ 53 - 1) * 2 ^ 971 := mul_le_mul_of_nonneg_left hpw (by norm_num)

theorem Dbl.two_factors (c1 c2 : ℚ) (h1 : |c1 - 1| ≤ 1 / 2 ^ 53) (h2 : |c2 - 1| ≤ 1 / 2 ^ 53) :
    |c1 * c2 - 1| ≤ 1 / 2 ^ 51 := by
  have heq : c1 * c2 - 1 = (c1 - 1) * (c2 - 1) + (c1 - 1) + (c2 - 1) := by ring
  have hm : |(c1 - 1) * (c2 - 1)| ≤ 1 / 2 ^ 53 * (1 / 2 ^ 53) := by
    rw [abs_mul]
    exact mul_le_mul h1 h2 (abs_nonneg _) (by positivity)
  rw [heq]
  calc |(c1 - 1) * (c2 - 1) + (c1 - 1) + (c2 - 1)|
      ≤ |(c1 - 1) * (c2 - 1) + (c1 - 1)| + |c2 - 1| := abs_add _ _
    _ ≤ |(c1 - 1) * (c2 - 1)| + |c1 - 1| + |c2 - 1| := by
        have := abs_add ((c1 - 1) * (c2 - 1)) (c1 - 1)
        linarith
    _ ≤ 1 / 2 ^ 53 * (1 / 2 ^ 53) + 1 / 2 ^ 53 + 1 / 2 ^ 53 := by linarith
    _ ≤ 1 / 2 ^ 51 := by norm_num

theorem Dbl.factor_bounds (c : ℚ) (h : |c - 1| ≤ 1 / 2 ^ 53) :
    1 - 1 / 2 ^ 53 ≤ c ∧ c ≤ 1 + 1 / 2 ^ 53 := by
  have := abs_le.mp h
  constructor <;> linarith

theorem Dbl.four_factors (c1 c2 c3 c4 : ℚ) (h1 : |c1 - 1| ≤ 1 / 2 ^ 53)
    (h2 : |c2 - 1| ≤ 1 / 2 ^ 53) (h3 : |c3 - 1| ≤ 1 / 2 ^ 53) (h4 : |c4 - 1| ≤ 1 / 2 ^ 53) :
    |c1 * c2 * c4 / c3 - 1| ≤ 5 / 2 ^ 53 := by
  obtain ⟨l1, u1⟩ := Dbl.factor_bounds c1 h1
  obtain ⟨l2, u2⟩ := Dbl.factor_bounds c2 h2
  obtain ⟨l3, u3⟩ := Dbl.factor_bounds c3 h3
  obtain ⟨l4, u4⟩ := Dbl.factor_bounds c4 h4
  have hL : (0 : ℚ) < 1 - 1 / 2 ^ 53 := by norm_num
  have p1 : 0 < c1 := by linarith
  have p2 : 0 < c2 := by linarith
  have p3 : 0 < c3 := by linarith
  have p4 : 0 < c4 := by linarith
  have lo12 : (1 - 1 / 2 ^ 53) * (1 - 1 / 2 ^ 53) ≤ c1 * c2 :=
    mul_le_mul l1 l2 hL.le p1.le
  have hi12 : c1 * c2 ≤ (1 + 1 / 2 ^ 53) * (1 + 1 / 2 ^ 53) :=
    mul_le_mul u1 u2 p2.le (by norm_num)
  have lo : (1 - 1 / 2 ^ 53) * (1 - 1 / 2 ^ 53) * (1 - 1 / 2 ^ 53) ≤ c1 * c2 * c4 :=
    mul_le_mul lo12 l4 hL.le (by positivity)
  have hi : c1 * c2 * c4 ≤ (1 + 1 / 2 ^ 53) * (1 + 1 / 2 ^ 53) * (1 + 1 / 2 ^ 53) :=
    mul_le_mul hi12 u4 p4.le (by norm_num)
  have hq1 : c1 * c2 * c4 / c3
      ≤ (1 + 1 / 2 ^ 53) * (1 + 1 / 2 ^ 53) * (1 + 1 / 2 ^ 53) / (1 - 1 / 2 ^ 53) :=
    div_le_div₀ (by norm_num) hi hL l3
  have hq2 : (1 - 1 / 2 ^ 53) * (1 - 1 / 2 ^ 53) * (1 - 1 / 2 ^ 53) / (1 + 1 / 2 ^ 53)
      ≤ c1 * c2 * c4 / c3 :=
    div_le_div₀ (by positivity) lo p3 u3
  have n1 : (1 + 1 / 2 ^ 53) * (1 + 1 / 2 ^ 53) * (1 + 1 / 2 ^ 53) / (1 - 1 / 2 ^ 53)
      ≤ (1 : ℚ) + 5 / 2 ^ 53 := by norm_num
  have n2 : (1 : ℚ) - 5 / 2 ^ 53
      ≤ (1 - 1 / 2 ^ 53) * (1 - 1 / 2 ^ 53) * (1 - 1 / 2 ^ 53) / (1 + 1 / 2 ^ 53) := by norm_num
  rw [abs_le]
  constructor <;> linarith

/-- Relative error of the rounding at zero or at a number of magnitude between
`2 ^ (-1000)` and `2 ^ 1000`. -/
theorem Dbl.roundNearest_factor_mid (x : ℚ)
    (h : x = 0 ∨ (1 / 2 ^ 1000 ≤ |x| ∧ |x| ≤ 2 ^ 1000)) :
    ∃ c : ℚ, Dbl.roundNearest x = Dbl.fin (x * c) ∧ |c - 1| ≤ 1 / 2 ^ 53 := by
  rcases h with h0 | ⟨hlo, hhi⟩
  · exact Dbl.roundNearest_factor x (Or.inl h0) (by rw [h0]; norm_num)
  · exact Dbl.roundNearest_factor x (Or.inr (le_trans (by norm_num) hlo))
      (le_trans hhi (by norm_num))

theorem Console.pdr64_eq_csv (fs : FlowStats) : Console.pdr64 fs = Csv.pdr64 fs := rfl

theorem Console.throughput64_eq_csv (cfg : Config) (fs : FlowStats) :
    Console.throughput64 cfg fs = Csv.throughput64 cfg fs := rfl

theorem shown_pdr64 (cfg : Config) (findFlow : Nat → FiveTuple) (flowId : Nat)
    (fs : FlowStats) :
    shown "  PDR: " (Console.block64 cfg findFlow flowId fs)
      = some (Item.dbl (Console.pdr64 fs)) := by
  simp [shown, Console.block64]

theorem shown_throughput64 (cfg : Config) (findFlow : Nat → FiveTuple) (flowId : Nat)
    (fs : FlowStats) :
    shown "  Throughput: " (Console.block64 cfg findFlow flowId fs)
      = some (Item.dbl (Console.throughput64 cfg fs)) := by
  simp [shown, Console.block64]

theorem shown_delay64 (cfg : Config) (findFlow : Nat → FiveTuple) (flowId : Nat)
    (fs : FlowStats) :
    shown "  Average Delay: " (Console.block64 cfg findFlow flowId fs)
      = some (Item.dbl (Console.delay64 fs)) := by
  simp [shown, Console.block64]

theorem values_line64 (cfg : Config) (fs : FlowStats) (d : Dbl) :
    values (Csv.line64 cfg fs d)
      = [Item.dbl (Dbl.fin cfg.distance), Item.u32 fs.txPackets, Item.u32 fs.rxPackets,
         Item.dbl (Csv.pdr64 fs), Item.dbl (Csv.throughput64 cfg fs), Item.dbl d] := by
  simp [values, Csv.line64]

theorem Csv.writeFlow64_of_rx_ne_zero (cfg : Config) (file : List Item) (fs : FlowStats)
    (h : fs.rxPackets ≠ 0) :
    Csv.writeFlow64 cfg file fs
      = some (file ++ Csv.line64 cfg fs
          (Dbl.ofInt64 (Int.tdiv fs.delaySumMs (fs.rxPackets : Int)))) := by
  simp [Csv.writeFlow64, Csv.delay64, h]

theorem Csv.writeFlow64_of_rx_zero (cfg : Config) (file : List Item) (fs : FlowStats)
    (h : fs.rxPackets = 0) :
    Csv.writeFlow64 cfg file fs = none := by
  simp [Csv.writeFlow64, Csv.delay64, h]

/-- The binary64 PDR of a flow with `0 < txPackets`, both counters below
`2 ^ 32`: the exact ratio times 100, times the factors of the two roundings. -/
theorem Console.pdr64_factors (fs : FlowStats) (htx : 0 < fs.txPackets)
    (htx32 : fs.txPackets < 2 ^ 32) (hrx32 : fs.rxPackets < 2 ^ 32) :
    ∃ c1 c2 : ℚ,
      Console.pdr64 fs = Dbl.fin ((fs.rxPackets : ℚ) / (fs.txPackets : ℚ) * c1 * 100 * c2) ∧
      |c1 - 1| ≤ 1 / 2 ^ 53 ∧ |c2 - 1| ≤ 1 / 2 ^ 53 := by
  have htq : (0 : ℚ) < (fs.txPackets : ℚ) := by exact_mod_cast htx
  have htq1 : (1 : ℚ) ≤ (fs.txPackets : ℚ) := by exact_mod_cast htx
  have htq2 : (fs.txPackets : ℚ) ≤ 2 ^ 32 := by exact_mod_cast htx32.le
  have hrq2 : (fs.rxPackets : ℚ) ≤ 2 ^ 32 := by exact_mod_cast hrx32.le
  have hrq0 : (0 : ℚ) ≤ (fs.rxPackets : ℚ) := by positivity
  have hx1 : (fs.rxPackets : ℚ) / (fs.txPackets : ℚ) = 0
      ∨ (1 / 2 ^ 32 ≤ (fs.rxPackets : ℚ) / (fs.txPackets : ℚ)
          ∧ (fs.rxPackets : ℚ) / (fs.txPackets : ℚ) ≤ 2 ^ 32) := by
    by_cases hr : fs.rxPackets = 0
    · left
      simp [hr]
    · right
      have hrq1 : (1 : ℚ) ≤ (fs.rxPackets : ℚ) := by
        exact_mod_cast Nat.one_le_iff_ne_zero.mpr hr
      constructor
      · rw [le_div_iff₀ htq]
        have : (1 : ℚ) / 2 ^ 32 * (fs.txPackets : ℚ) ≤ 1 / 2 ^ 32 * 2 ^ 32 :=
          mul_le_mul_of_nonneg_left htq2 (by positivity)
        have h1 : (1 : ℚ) / 2 ^ 32 * 2 ^ 32 = 1 := by norm_num
        linarith
      · rw [div_le_iff₀ htq]
        have : (2 : ℚ) ^ 32 * 1 ≤ 2 ^ 32 * (fs.txPackets : ℚ) :=
          mul_le_mul_of_nonneg_left htq1 (by positivity)
        linarith
  have hx1nn : 0 ≤ (fs.rxPackets : ℚ) / (fs.txPackets : ℚ) := by positivity
  obtain ⟨c1, hc1, hb1⟩ := Dbl.roundNearest_factor_mid ((fs.rxPackets : ℚ) / (fs.txPackets : ℚ))
    (by
      rcases hx1 with h0 | ⟨hlo, hhi⟩
      · exact Or.inl h0
      · right
        rw [abs_of_nonneg hx1nn]
        exact ⟨le_trans (by norm_num) hlo, le_trans hhi (by norm_num)⟩)
  obtain ⟨l1, u1⟩ := Dbl.factor_bounds c1 hb1
  have hc1lo : (1 : ℚ) / 2 ≤ c1 := le_trans (by norm_num) l1
  have hc1hi : c1 ≤ 2 := le_trans u1 (by norm_num)
  have hx2nn : 0 ≤ (fs.rxPackets : ℚ) / (fs.txPackets : ℚ) * c1 * 100 := by positivity
  obtain ⟨c2, hc2, hb2⟩ := Dbl.roundNearest_factor_mid
    ((fs.rxPackets : ℚ) / (fs.txPackets : ℚ) * c1 * 100)
    (by
      rcases hx1 with h0 | ⟨hlo, hhi⟩
      · left
        rw [h0]
        ring
      · right
        rw [abs_of_nonneg hx2nn]
        constructor
        · have h3 : (1 : ℚ) / 2 ^ 32 * (1 / 2)
              ≤ (fs.rxPackets : ℚ) / (fs.txPackets : ℚ) * c1 :=
            mul_le_mul hlo hc1lo (by norm_num) hx1nn
          have : (1 : ℚ) / 2 ^ 1000 ≤ 1 / 2 ^ 32 * (1 / 2) * 100 := by norm_num
          linarith
        · have h3 : (fs.rxPackets : ℚ) / (fs.txPackets : ℚ) * c1 ≤ 2 ^ 32 * 2 :=
            mul_le_mul hhi hc1hi (by linarith) (by positivity)
          have : (2 : ℚ) ^ 32 * 2 * 100 ≤ 2 ^ 1000 := by norm_num
          linarith)
  refine ⟨c1, c2, ?_, hb1, hb2⟩
  unfold Console.pdr64 Console.rxPackets64 Console.txPackets64 Dbl.mul64 Dbl.div64
  rw [Dbl.ofNat64_of_lt _ (lt_trans hrx32 (by norm_num)),
    Dbl.ofNat64_of_lt _ (lt_trans htx32 (by norm_num)),
    Dbl.div_fin_of_ne _ _ (ne_of_gt htq), Dbl.fl_fin, hc1]
  simp only [Dbl.mul]
  rw [Dbl.fl_fin, hc2]

end WifiSimple

/-! ## Mean delay when nothing was received -/

namespace WifiSimple

/-- C1: for the flow `txPackets = 10`, `rxPackets = 0`, `delaySum = 0` the console
loop derives `NaN` as mean delay, but the CSV loop divides the integer delay sum
by the integer `rxPackets = 0`: the division is undefined, no mean delay is
derived for the record, no data line is written and the save step has no
defined result. -/
theorem csv_delay_undefined_when_nothing_received :
    Console.delay ⟨10, 0, 0, 0, 0⟩ = Dbl.nan ∧
    Csv.delay ⟨10, 0, 0, 0, 0⟩ = none ∧
    Csv.writeFlow ⟨50, 10⟩ [Csv.header] ⟨10, 0, 0, 0, 0⟩ = none ∧
    Csv.save true ⟨50, 10⟩ ⟨[(1, ⟨10, 0, 0, 0, 0⟩)], by simp⟩ [] = none := by
  refine ⟨?_, ?_, ?_, ?_⟩
  · simp [Console.delay, Console.rxPackets, Dbl.ofNat, Dbl.ofInt, Dbl.div]
  · simp [Csv.delay]
  · simp [Csv.writeFlow, Csv.delay]
  · simp [Csv.save, Csv.writeFlows, Csv.writeFlow, Csv.delay]

/-! ## Packet delivery ratio -/

theorem Console.pdr64_eval (fs : FlowStats) (htx : fs.txPackets ≠ 0)
    (htx53 : fs.txPackets < 2 ^ 53) (hrx53 : fs.rxPackets < 2 ^ 53) :
    Console.pdr64 fs
      = Dbl.fl (Dbl.mul (Dbl.roundNearest ((fs.rxPackets : ℚ) / (fs.txPackets : ℚ)))
          (Dbl.fin 100)) := by
  have htq : (fs.txPackets : ℚ) ≠ 0 := by exact_mod_cast htx
  unfold Console.pdr64 Console.rxPackets64 Console.txPackets64 Dbl.mul64 Dbl.div64
  rw [Dbl.ofNat64_of_lt _ hrx53, Dbl.ofNat64_of_lt _ htx53, Dbl.div_fin_of_ne _ _ htq,
    Dbl.fl_fin]

/-- C4 (counterexample): for `txPackets = 50`, `rxPackets = 29` both loops derive
the binary64 number `58 - 2 ^ (-47)` (printed 57.99999999999999), not the exact
rational `100 * 29 / 50 = 58`; and for a flow with `txPackets = 10`,
`rxPackets = 0` no CSV record is written. -/
theorem pdr_not_exact_counterexample :
    Console.pdr64 ⟨50, 29, 21, 29696, 290⟩ = Dbl.fin (58 - 1 / 2 ^ 47) ∧
    Csv.pdr64 ⟨50, 29, 21, 29696, 290⟩ = Dbl.fin (58 - 1 / 2 ^ 47) ∧
    (100 * ((29 : ℕ) : ℚ) / ((50 : ℕ) : ℚ) = 58) ∧
    Console.pdr64 ⟨50, 29, 21, 29696, 290⟩ ≠ Dbl.fin (100 * ((29 : ℕ) : ℚ) / ((50 : ℕ) : ℚ)) ∧
    Csv.writeFlow64 ⟨50, 10⟩ [Csv.header] ⟨10, 0, 0, 0, 0⟩ = none := by
  have h1 : Dbl.roundNearest (29 / 50) = Dbl.fin (5224175567749775 / 2 ^ 53) := by
    rw [Dbl.roundNearest_eq (29 / 50) (-1) 5224175567749775 (by norm_num [abs_of_pos])
      (by norm_num [abs_of_pos]) (by norm_num) (by norm_num [abs_lt]) (by norm_num [abs_lt])]
    norm_num
  have h2 : Dbl.roundNearest (5224175567749775 / 2 ^ 53 * 100) = Dbl.fin (58 - 1 / 2 ^ 47) := by
    rw [Dbl.roundNearest_eq (5224175567749775 / 2 ^ 53 * 100) 5 8162774324609023
      (by norm_num [abs_of_pos]) (by norm_num [abs_of_pos]) (by norm_num)
      (by norm_num [abs_lt]) (by norm_num [abs_lt])]
    norm_num
  have hp : Console.pdr64 ⟨50, 29, 21, 29696, 290⟩ = Dbl.fin (58 - 1 / 2 ^ 47) := by
    rw [Console.pdr64_eval _ (by decide) (by norm_num) (by norm_num)]
    have : (((⟨50, 29, 21, 29696, 290⟩ : FlowStats).rxPackets : ℚ)
        / ((⟨50, 29, 21, 29696, 290⟩ : FlowStats).txPackets : ℚ)) = 29 / 50 := by norm_num
    rw [this, h1]
    simp only [Dbl.mul]
    rw [Dbl.fl_fin, h2]
  refine ⟨hp, hp, by norm_num, ?_, ?_⟩
  · rw [hp]
    intro h
    have hq := Dbl.fin.inj h
    norm_num at hq
  · simp [Csv.writeFlow64, Csv.delay64]

/-- C4 (amended): for every flow with `0 < txPackets` (the counters being
`uint32_t`) the PDR derived by the console loop and by the CSV loop is one and
the same binary64 number `v`, the rounded product by 100 of the rounded ratio;
it is within the relative error `2 ^ (-51)` of `100 * rxPackets / txPackets`;
the console block shows `v`, and when `rxPackets ≠ 0` the data line of the flow
is written with `v` as its fourth field. -/
theorem pdr_binary64 (cfg : Config) (findFlow : Nat → FiveTuple) (flowId : Nat)
    (file : List Item) (fs : FlowStats) (htx : 0 < fs.txPackets)
    (htx32 : fs.txPackets < 2 ^ 32) (hrx32 : fs.rxPackets < 2 ^ 32) :
    ∃ v : ℚ, Console.pdr64 fs = Dbl.fin v ∧ Csv.pdr64 fs = Dbl.fin v ∧
      |v - 100 * (fs.rxPackets : ℚ) / (fs.txPackets : ℚ)|
        ≤ 100 * (fs.rxPackets : ℚ) / (fs.txPackets : ℚ) / 2 ^ 51 ∧
      shown "  PDR: " (Console.block64 cfg findFlow flowId fs) = some (Item.dbl (Dbl.fin v)) ∧
      (fs.rxPackets ≠ 0 →
        ∃ d : Dbl, Csv.writeFlow64 cfg file fs = some (file ++ Csv.line64 cfg fs d) ∧
          (values (Csv.line64 cfg fs d))[3]? = some (Item.dbl (Dbl.fin v))) := by
  obtain ⟨c1, c2, hv, hb1, hb2⟩ := Console.pdr64_factors fs htx htx32 hrx32
  have hcsv : Csv.pdr64 fs = _ := (Console.pdr64_eq_csv fs).symm.trans hv
  have hX : 0 ≤ 100 * (fs.rxPackets : ℚ) / (fs.txPackets : ℚ) := by positivity
  refine ⟨_, hv, hcsv, ?_, by rw [shown_pdr64, hv], ?_⟩
  · have heq : (fs.rxPackets : ℚ) / (fs.txPackets : ℚ) * c1 * 100 * c2
        - 100 * (fs.rxPackets : ℚ) / (fs.txPackets : ℚ)
        = 100 * (fs.rxPackets : ℚ) / (fs.txPackets : ℚ) * (c1 * c2 - 1) := by ring
    rw [heq, abs_mul, abs_of_nonneg hX, div_eq_mul_one_div
      (100 * (fs.rxPackets : ℚ) / (fs.txPackets : ℚ)) (2 ^ 51)]
    exact mul_le_mul_of_nonneg_left (Dbl.two_factors c1 c2 hb1 hb2) hX
  · intro hrx
    refine ⟨_, Csv.writeFlow64_of_rx_ne_zero cfg file fs hrx, ?_⟩
    simp [values_line64, hcsv]

/-- Witness of C4 (amended): `txPackets = 100` and `rxPackets = 95` give a number
within `95 / 2 ^ 51` of 95; the binary64 evaluation gives exactly 95. -/
theorem pdr_binary64_witness :
    0 < (⟨100, 95, 5, 97280, 950⟩ : FlowStats).txPackets ∧
    (∃ v : ℚ, Console.pdr64 ⟨100, 95, 5, 97280, 950⟩ = Dbl.fin v ∧
      Csv.pdr64 ⟨100, 95, 5, 97280, 950⟩ = Dbl.fin v ∧ |v - 95| ≤ 95 / 2 ^ 51) ∧
    Console.pdr64 ⟨100, 95, 5, 97280, 950⟩ = Dbl.fin 95 := by
  obtain ⟨v, h1, h2, h3, _, _⟩ := pdr_binary64 ⟨50, 10⟩ (fun _ => ⟨1, 2⟩) 1 []
    ⟨100, 95, 5, 97280, 950⟩ (by decide) (by norm_num) (by norm_num)
  refine ⟨by decide, ⟨v, h1, h2, by norm_num at h3 ⊢; exact h3⟩, ?_⟩
  have e1 : Dbl.roundNearest (95 / 100) = Dbl.fin (8556839292003942 / 2 ^ 53) := by
    rw [Dbl.roundNearest_eq (95 / 100) (-1) 8556839292003942 (by norm_num [abs_of_pos])
      (by norm_num [abs_of_pos]) (by norm_num) (by norm_num [abs_lt]) (by norm_num [abs_lt])]
    norm_num
  have e2 : Dbl.roundNearest (8556839292003942 / 2 ^ 53 * 100) = Dbl.fin 95 := by
    rw [Dbl.roundNearest_eq (8556839292003942 / 2 ^ 53 * 100) 6 6685030696878080
      (by norm_num [abs_of_pos]) (by norm_num [abs_of_pos]) (by norm_num)
      (by norm_num [abs_lt]) (by norm_num [abs_lt])]
    norm_num
  rw [Console.pdr64_eval _ (by decide) (by norm_num) (by norm_num)]
  have : (((⟨100, 95, 5, 97280, 950⟩ : FlowStats).rxPackets : ℚ)
      / ((⟨100, 95, 5, 97280, 950⟩ : FlowStats).txPackets : ℚ)) = 95 / 100 := by norm_num
  rw [this, e1]
  simp only [Dbl.mul]
  rw [Dbl.fl_fin, e2]

/-! ## Throughput -/

theorem Console.throughput64_unfold (cfg : Config) (fs : FlowStats) :
    Console.throughput64 cfg fs
      = Dbl.fl (Dbl.div
          (Dbl.fl (Dbl.div
            (Dbl.fl (Dbl.mul (Dbl.roundNearest (fs.rxBytes : ℚ)) (Dbl.fin 8)))
            (Dbl.roundNearest (cfg.simulationTime - 1))))
          (Dbl.fin 1000)) := rfl

theorem Dbl.pow_le_maxFinite (n : ℕ) (hn : n ≤ 971) (a : ℚ) (ha : a ≤ 2 ^ n) :
    a ≤ (2 ^ 53 - 1) * 2 ^ 971 := by
  have h1 : (2 : ℚ) ^ n ≤ 2 ^ 971 := pow_le_pow_right₀ (by norm_num) hn
  have h2 : (1 : ℚ) * 2 ^ 971 ≤ (2 ^ 53 - 1) * 2 ^ 971 :=
    mul_le_mul_of_nonneg_right (by norm_num) (by positivity)
  linarith

theorem Dbl.maxFinite_mul_le : (2 ^ 53 - 1 : ℚ) * 2 ^ 971 * (1 + 1 / 2 ^ 53) ≤ 2 ^ 1024 := by
  have h1 : (2 ^ 53 - 1 : ℚ) * (1 + 1 / 2 ^ 53) ≤ 2 ^ 53 := by norm_num
  have h2 : (2 ^ 53 - 1 : ℚ) * 2 ^ 971 * (1 + 1 / 2 ^ 53)
      = (2 ^ 53 - 1) * (1 + 1 / 2 ^ 53) * 2 ^ 971 := by ring
  have h3 : (2 : ℚ) ^ 1024 = 2 ^ 53 * 2 ^ 971 := by rw [← pow_add]
  rw [h2, h3]
  exact mul_le_mul_of_nonneg_right h1 (by positivity)

theorem Dbl.tiny_mul_le (D : ℚ) (hD : D ≤ (2 ^ 53 - 1) * 2 ^ 971 * (1 + 1 / 2 ^ 53)) :
    (2 : ℚ) ^ (-1022 : ℤ) * D ≤ 4 := by
  have hp : (0 : ℚ) ≤ 2 ^ (-1022 : ℤ) := by positivity
  have h2 : D ≤ 2 ^ 1024 := le_trans hD Dbl.maxFinite_mul_le
  calc (2 : ℚ) ^ (-1022 : ℤ) * D ≤ 2 ^ (-1022 : ℤ) * 2 ^ 1024 :=
        mul_le_mul_of_nonneg_left h2 hp
    _ = 4 := by
        rw [zpow_neg, zpow_ofNat]
        have h3 : (2 : ℚ) ^ 1024 = 2 ^ 1022 * 4 := by
          rw [show (4 : ℚ) = 2 ^ 2 by norm_num, ← pow_add]
        rw [h3]
        field_simp

theorem Dbl.error_compose (X G y v : ℚ) (hX : 0 ≤ X) (hy : y = X * G)
    (hG : |G - 1| ≤ 5 / 2 ^ 53) (hv : |v - y| ≤ |y| / 2 ^ 53 + 1 / 2 ^ 1075) :
    |v - X| ≤ X / 2 ^ 50 + 1 / 2 ^ 1075 := by
  have hGb := abs_le.mp hG
  have hG0 : 0 ≤ G := by
    have : (0 : ℚ) ≤ 1 - 5 / 2 ^ 53 := by norm_num
    linarith
  have hyabs : |y| = X * G := by rw [hy]; exact abs_of_nonneg (mul_nonneg hX hG0)
  have hXG : X * G ≤ X * (1 + 5 / 2 ^ 53) := mul_le_mul_of_nonneg_left (by linarith) hX
  have hyX : |y - X| ≤ X * (5 / 2 ^ 53) := by
    have : y - X = X * (G - 1) := by rw [hy]; ring
    rw [this, abs_mul, abs_of_nonneg hX]
    exact mul_le_mul_of_nonneg_left hG hX
  have htri : |v - X| ≤ |v - y| + |y - X| := by
    have : v - X = (v - y) + (y - X) := by ring
    rw [this]
    exact abs_add _ _
  rw [hyabs] at hv
  have hnum : X * (1 + 5 / 2 ^ 53) / 2 ^ 53 + X * (5 / 2 ^ 53) ≤ X / 2 ^ 50 := by
    have : X * (1 + 5 / 2 ^ 53) / 2 ^ 53 + X * (5 / 2 ^ 53)
        = X * ((1 + 5 / 2 ^ 53) / 2 ^ 53 + 5 / 2 ^ 53) := by ring
    rw [this, div_eq_mul_one_div X (2 ^ 50)]
    exact mul_le_mul_of_nonneg_left (by norm_num) hX
  have h1 : X * G / 2 ^ 53 ≤ X * (1 + 5 / 2 ^ 53) / 2 ^ 53 :=
    div_le_div_of_nonneg_right hXG (by positivity)
  linarith

/-- The binary64 throughput for a binary64 `simulationTime > 1` and a `uint64_t`
`rxBytes`: a number within the relative error `2 ^ (-50)`, plus half the
spacing of the subnormal numbers, of `8 * rxBytes / ((simulationTime - 1) * 1000)`. -/
theorem Console.throughput64_error (cfg : Config) (fs : FlowStats)
    (h : 1 < cfg.simulationTime) (hst : Dbl.IsBinary64 cfg.simulationTime)
    (hB : fs.rxBytes < 2 ^ 64) :
    ∃ v : ℚ, Console.throughput64 cfg fs = Dbl.fin v ∧
      |v - 8 * (fs.rxBytes : ℚ) / ((cfg.simulationTime - 1) * 1000)|
        ≤ 8 * (fs.rxBytes : ℚ) / ((cfg.simulationTime - 1) * 1000) / 2 ^ 50
          + 1 / 2 ^ 1075 := by
  obtain ⟨hs1, hs2⟩ := Dbl.IsBinary64.bounds cfg.simulationTime hst h
  have hW1 : (1 : ℚ) / 2 ^ 52 ≤ cfg.simulationTime - 1 := by linarith
  have hW2 : cfg.simulationTime - 1 ≤ (2 ^ 53 - 1) * 2 ^ 971 := by linarith
  have hWpos : 0 < cfg.simulationTime - 1 := lt_of_lt_of_le (by norm_num) hW1
  have hBq0 : (0 : ℚ) ≤ (fs.rxBytes : ℚ) := by positivity
  have hBq2 : (fs.rxBytes : ℚ) ≤ 2 ^ 64 := by exact_mod_cast hB.le
  have hBcase : fs.rxBytes = 0 ∨ (1 : ℚ) ≤ (fs.rxBytes : ℚ) := by
    by_cases h0 : fs.rxBytes = 0
    · exact Or.inl h0
    · exact Or.inr (by exact_mod_cast Nat.one_le_iff_ne_zero.mpr h0)
  -- conversion of rxBytes
  obtain ⟨c1, hc1, hb1⟩ := Dbl.roundNearest_factor_mid (fs.rxBytes : ℚ)
    (by
      rcases hBcase with h0 | h1
      · left
        exact_mod_cast h0
      · right
        rw [abs_of_nonneg hBq0]
        exact ⟨le_trans (by norm_num) h1, le_trans hBq2 (by norm_num)⟩)
  obtain ⟨l1, u1⟩ := Dbl.factor_bounds c1 hb1
  have c1lo : (7 : ℚ) / 8 ≤ c1 := le_trans (by norm_num) l1
  have c1hi : c1 ≤ 2 := le_trans u1 (by norm_num)
  have c1pos : 0 < c1 := lt_of_lt_of_le (by norm_num) c1lo
  -- product with 8.0
  have hx2nn : 0 ≤ (fs.rxBytes : ℚ) * c1 * 8 := by positivity
  have hBc1hi : (fs.rxBytes : ℚ) * c1 ≤ 2 ^ 64 * 2 :=
    mul_le_mul hBq2 c1hi c1pos.le (by positivity)
  obtain ⟨c2, hc2, hb2⟩ := Dbl.roundNearest_factor_mid ((fs.rxBytes : ℚ) * c1 * 8)
    (by
      rcases hBcase with h0 | h1
      · left
        rw [h0]
        simp
      · right
        rw [abs_of_nonneg hx2nn]
        constructor
        · have h3 : (1 : ℚ) * (7 / 8) ≤ (fs.rxBytes : ℚ) * c1 :=
            mul_le_mul h1 c1lo (by norm_num) hBq0
          have : (1 : ℚ) / 2 ^ 1000 ≤ 1 * (7 / 8) * 8 := by norm_num
          linarith
        · have : (2 : ℚ) ^ 64 * 2 * 8 ≤ 2 ^ 1000 := by norm_num
          linarith)
  obtain ⟨l2, u2⟩ := Dbl.factor_bounds c2 hb2
  have c2lo : (7 : ℚ) / 8 ≤ c2 := le_trans (by norm_num) l2
  have c2hi : c2 ≤ 2 := le_trans u2 (by norm_num)
  have c2pos : 0 < c2 := lt_of_lt_of_le (by norm_num) c2lo
  have hNnn : 0 ≤ (fs.rxBytes : ℚ) * c1 * 8 * c2 := by positivity
  have hNhi : (fs.rxBytes : ℚ) * c1 * 8 * c2 ≤ 2 ^ 64 * 2 * 8 * 2 := by
    have : (fs.rxBytes : ℚ) * c1 * 8 ≤ 2 ^ 64 * 2 * 8 := by linarith
    exact mul_le_mul this c2hi c2pos.le (by positivity)
  -- simulationTime - 1.0
  obtain ⟨c3, hc3, hb3⟩ := Dbl.roundNearest_factor (cfg.simulationTime - 1)
    (Or.inr (by
      rw [abs_of_pos hWpos]
      exact le_trans (by norm_num) hW1))
    (by rw [abs_of_pos hWpos]; exact hW2)
  obtain ⟨l3, u3⟩ := Dbl.factor_bounds c3 hb3
  have c3lo : (1 : ℚ) / 2 ≤ c3 := le_trans (by norm_num) l3
  have c3pos : 0 < c3 := lt_of_lt_of_le (by norm_num) c3lo
  have hDpos : 0 < (cfg.simulationTime - 1) * c3 := mul_pos hWpos c3pos
  have hDlo : (1 : ℚ) / 2 ^ 52 * (1 / 2) ≤ (cfg.simulationTime - 1) * c3 :=
    mul_le_mul hW1 c3lo (by norm_num) hWpos.le
  have hDsmall : (2 : ℚ) ^ (-1022 : ℤ) * ((cfg.simulationTime - 1) * c3) ≤ 4 :=
    Dbl.tiny_mul_le _ (mul_le_mul hW2 u3 c3pos.le (by norm_num))
  -- first division
  have hx4nn : 0 ≤ (fs.rxBytes : ℚ) * c1 * 8 * c2 / ((cfg.simulationTime - 1) * c3) :=
    div_nonneg hNnn hDpos.le
  have hx4hi : (fs.rxBytes : ℚ) * c1 * 8 * c2 / ((cfg.simulationTime - 1) * c3) ≤ 2 ^ 122 := by
    rw [div_le_iff₀ hDpos]
    have : (2 : ℚ) ^ 122 * (1 / 2 ^ 52 * (1 / 2)) ≤ 2 ^ 122 * ((cfg.simulationTime - 1) * c3) :=
      mul_le_mul_of_nonneg_left hDlo (by positivity)
    have h2 : (2 : ℚ) ^ 64 * 2 * 8 * 2 ≤ 2 ^ 122 * (1 / 2 ^ 52 * (1 / 2)) := by norm_num
    linarith
  obtain ⟨c4, hc4, hb4⟩ := Dbl.roundNearest_factor
    ((fs.rxBytes : ℚ) * c1 * 8 * c2 / ((cfg.simulationTime - 1) * c3))
    (by
      rcases hBcase with h0 | h1
      · left
        rw [h0]
        simp
      · right
        rw [abs_of_nonneg hx4nn, le_div_iff₀ hDpos]
        have h3 : (1 : ℚ) * (7 / 8) ≤ (fs.rxBytes : ℚ) * c1 :=
          mul_le_mul h1 c1lo (by norm_num) hBq0
        have h4 : (1 : ℚ) * (7 / 8) * 8 * (7 / 8) ≤ (fs.rxBytes : ℚ) * c1 * 8 * c2 :=
          mul_le_mul (by linarith) c2lo (by norm_num) (by positivity)
        calc (2 : ℚ) ^ (-1022 : ℤ) * ((cfg.simulationTime - 1) * c3) ≤ 4 := hDsmall
          _ ≤ 1 * (7 / 8) * 8 * (7 / 8) := by norm_num
          _ ≤ (fs.rxBytes : ℚ) * c1 * 8 * c2 := h4)
    (by
      rw [abs_of_nonneg hx4nn]
      exact Dbl.pow_le_maxFinite 122 (by norm_num) _ hx4hi)
  obtain ⟨l4, u4⟩ := Dbl.factor_bounds c4 hb4
  have c4hi : c4 ≤ 2 := le_trans u4 (by norm_num)
  have c4pos : 0 < c4 := lt_of_lt_of_le (by norm_num) l4
  -- second division
  have hynn : 0 ≤ (fs.rxBytes : ℚ) * c1 * 8 * c2 / ((cfg.simulationTime - 1) * c3) * c4 / 1000 := by
    positivity
  have hyhi : (fs.rxBytes : ℚ) * c1 * 8 * c2 / ((cfg.simulationTime - 1) * c3) * c4 / 1000
      ≤ (2 ^ 53 - 1) * 2 ^ 971 := by
    have h3 : (fs.rxBytes : ℚ) * c1 * 8 * c2 / ((cfg.simulationTime - 1) * c3) * c4
        ≤ 2 ^ 122 * 2 := mul_le_mul hx4hi c4hi c4pos.le (by positivity)
    have h4 : (fs.rxBytes : ℚ) * c1 * 8 * c2 / ((cfg.simulationTime - 1) * c3) * c4 / 1000
        ≤ 2 ^ 122 * 2 / 1000 := div_le_div_of_nonneg_right h3 (by norm_num)
    exact Dbl.pow_le_maxFinite 123 (by norm_num) _ (le_trans h4 (by norm_num))
  obtain ⟨v, hv, herr⟩ := Dbl.roundNearest_err_abs
    ((fs.rxBytes : ℚ) * c1 * 8 * c2 / ((cfg.simulationTime - 1) * c3) * c4 / 1000)
    (by rw [abs_of_nonneg hynn]; exact hyhi)
  refine ⟨v, ?_, ?_⟩
  · rw [Console.throughput64_unfold, hc1]
    simp only [Dbl.mul]
    rw [Dbl.fl_fin, hc2, hc3, Dbl.div_fin_of_ne _ _ (ne_of_gt hDpos), Dbl.fl_fin, hc4,
      Dbl.div_fin_of_ne _ _ (by norm_num), Dbl.fl_fin, hv]
  · have hX : 0 ≤ 8 * (fs.rxBytes : ℚ) / ((cfg.simulationTime - 1) * 1000) := by positivity
    exact Dbl.error_compose _ (c1 * c2 * c4 / c3) _ v hX
      (by field_simp; ring) (Dbl.four_factors c1 c2 c3 c4 hb1 hb2 hb3 hb4) herr

/-- C5 (counterexample): for `rxBytes = 95 * 1024` and `simulationTime = 10` both
loops derive the binary64 number `6084863496536137 / 2 ^ 46`, not the exact
rational `8 * 95 * 1024 / 9000`; and for a flow with `txPackets = 10`,
`rxPackets = 0` no CSV record is written. -/
theorem throughput_not_exact_counterexample :
    Console.throughput64 ⟨50, 10⟩ ⟨100, 95, 5, 97280, 950⟩
      = Dbl.fin (6084863496536137 / 2 ^ 46) ∧
    Csv.throughput64 ⟨50, 10⟩ ⟨100, 95, 5, 97280, 950⟩
      = Dbl.fin (6084863496536137 / 2 ^ 46) ∧
    Console.throughput64 ⟨50, 10⟩ ⟨100, 95, 5, 97280, 950⟩
      ≠ Dbl.fin (8 * 95 * 1024 / 9000) ∧
    Csv.writeFlow64 ⟨50, 10⟩ [Csv.header] ⟨10, 0, 0, 0, 0⟩ = none := by
  have e : Console.throughput64 ⟨50, 10⟩ ⟨100, 95, 5, 97280, 950⟩
      = Dbl.fl (Dbl.div
          (Dbl.fl (Dbl.div
            (Dbl.fl (Dbl.mul (Dbl.roundNearest ((97280 : ℕ) : ℚ)) (Dbl.fin 8)))
            (Dbl.roundNearest (10 - 1))))
          (Dbl.fin 1000)) := rfl
  have n1 : Dbl.roundNearest ((97280 : ℕ) : ℚ) = Dbl.fin 97280 := by
    simpa using Dbl.roundNearest_natCast 97280 (by norm_num)
  have n2 : Dbl.roundNearest (97280 * 8) = Dbl.fin 778240 := by
    have := Dbl.roundNearest_natCast 778240 (by norm_num)
    norm_num at this ⊢
    exact this
  have n3 : Dbl.roundNearest (10 - 1) = Dbl.fin 9 := by
    have := Dbl.roundNearest_natCast 9 (by norm_num)
    norm_num at this ⊢
    exact this
  have n4 : Dbl.roundNearest (778240 / 9) = Dbl.fin (5942249508336071 / 2 ^ 36) := by
    rw [Dbl.roundNearest_eq (778240 / 9) 16 5942249508336071 (by norm_num [abs_of_pos])
      (by norm_num [abs_of_pos]) (by norm_num) (by norm_num [abs_lt]) (by norm_num [abs_lt])]
    norm_num
  have n5 : Dbl.roundNearest (5942249508336071 / 2 ^ 36 / 1000)
      = Dbl.fin (6084863496536137 / 2 ^ 46) := by
    rw [Dbl.roundNearest_eq (5942249508336071 / 2 ^ 36 / 1000) 6 6084863496536137
      (by norm_num [abs_of_pos]) (by norm_num [abs_of_pos]) (by norm_num)
      (by norm_num [abs_lt]) (by norm_num [abs_lt])]
    norm_num
  have ht : Console.throughput64 ⟨50, 10⟩ ⟨100, 95, 5, 97280, 950⟩
      = Dbl.fin (6084863496536137 / 2 ^ 46) := by
    rw [e, n1]
    simp only [Dbl.mul]
    rw [Dbl.fl_fin, n2, n3, Dbl.div_fin_of_ne _ _ (by norm_num), Dbl.fl_fin, n4,
      Dbl.div_fin_of_ne _ _ (by norm_num), Dbl.fl_fin, n5]
  refine ⟨ht, ht, ?_, ?_⟩
  · rw [ht]
    intro h
    have hq := Dbl.fin.inj h
    norm_num at hq
  · simp [Csv.writeFlow64, Csv.delay64]

/-- C5 (amended): for every binary64 `simulationTime > 1` and every flow (with
`rxBytes` a `uint64_t`) the throughput derived by the console loop and by the
CSV loop is one and the same binary64 number `v`, the rounded evaluation of
`(rxBytes * 8.0) / (simulationTime - 1.0) / 1000.0`; it is within the relative
error `2 ^ (-50)`, plus half the spacing `2 ^ (-1074)` of the subnormal numbers,
of `8 * rxBytes / (W * 1000)`, where `W` is the stop time of the client minus
its start time, `simulationTime - 1`, and not the stop time of the simulator,
`simulationTime + 1`; the console block shows `v`, and when `rxPackets ≠ 0` the
data line of the flow is written with `v` as its fifth field. -/
theorem throughput_binary64 (cfg : Config) (findFlow : Nat → FiveTuple) (flowId : Nat)
    (file : List Item) (fs : FlowStats) (h : 1 < cfg.simulationTime)
    (hst : Dbl.IsBinary64 cfg.simulationTime) (hB : fs.rxBytes < 2 ^ 64) :
    ∃ v : ℚ, Console.throughput64 cfg fs = Dbl.fin v ∧ Csv.throughput64 cfg fs = Dbl.fin v ∧
      |v - 8 * (fs.rxBytes : ℚ) / ((clientStop cfg - clientStart) * 1000)|
        ≤ 8 * (fs.rxBytes : ℚ) / ((clientStop cfg - clientStart) * 1000) / 2 ^ 50
          + 1 / 2 ^ 1075 ∧
      shown "  Throughput: " (Console.block64 cfg findFlow flowId fs)
        = some (Item.dbl (Dbl.fin v)) ∧
      clientStop cfg - clientStart = cfg.simulationTime - 1 ∧
      clientStop cfg - clientStart ≠ simulatorStop cfg ∧
      (fs.rxPackets ≠ 0 →
        ∃ d : Dbl, Csv.writeFlow64 cfg file fs = some (file ++ Csv.line64 cfg fs d) ∧
          (values (Csv.line64 cfg fs d))[4]? = some (Item.dbl (Dbl.fin v))) := by
  obtain ⟨v, hv, herr⟩ := Console.throughput64_error cfg fs h hst hB
  have hcsv : Csv.throughput64 cfg fs = Dbl.fin v :=
    (Console.throughput64_eq_csv cfg fs).symm.trans hv
  have hw : clientStop cfg - clientStart = cfg.simulationTime - 1 := rfl
  refine ⟨v, hv, hcsv, by rw [hw]; exact herr, by rw [shown_throughput64, hv], hw, ?_, ?_⟩
  · simp only [clientStop, clientStart, simulatorStop]
    intro hh
    linarith
  · intro hrx
    refine ⟨_, Csv.writeFlow64_of_rx_ne_zero cfg file fs hrx, ?_⟩
    simp [values_line64, hcsv]

/-- Witness of C5 (amended): `rxBytes = 95 * 1024` with `simulationTime = 10` gives
a number within the stated error of `8 * 95 * 1024 / 9000`. -/
theorem throughput_binary64_witness :
    1 < (⟨50, 10⟩ : Config).simulationTime ∧
    Dbl.IsBinary64 (⟨50, 10⟩ : Config).simulationTime ∧
    (∃ v : ℚ, Console.throughput64 ⟨50, 10⟩ ⟨100, 95, 5, 97280, 950⟩ = Dbl.fin v ∧
      Csv.throughput64 ⟨50, 10⟩ ⟨100, 95, 5, 97280, 950⟩ = Dbl.fin v ∧
      |v - 8 * 95 * 1024 / 9000| ≤ 8 * 95 * 1024 / 9000 / 2 ^ 50 + 1 / 2 ^ 1075) := by
  have hrep : Dbl.IsBinary64 (⟨50, 10⟩ : Config).simulationTime := by
    have := Dbl.roundNearest_natCast 10 (by norm_num)
    unfold Dbl.IsBinary64
    norm_num at this ⊢
    exact this
  obtain ⟨v, h1, h2, h3, _⟩ := throughput_binary64 ⟨50, 10⟩ (fun _ => ⟨1, 2⟩) 1 []
    ⟨100, 95, 5, 97280, 950⟩ (by norm_num) hrep (by norm_num)
  refine ⟨by norm_num, hrep, v, h1, h2, ?_⟩
  have hX : 8 * (((⟨100, 95, 5, 97280, 950⟩ : FlowStats).rxBytes : ℕ) : ℚ)
      / ((clientStop ⟨50, 10⟩ - clientStart) * 1000) = 8 * 95 * 1024 / 9000 := by
    norm_num [clientStop, clientStart]
  rw [hX] at h3
  exact h3

end WifiSimple

/-! ## Mean delay -/

namespace WifiSimple

theorem Console.delay64_eval (fs : FlowStats) (hrx : fs.rxPackets ≠ 0)
    (hrx53 : fs.rxPackets < 2 ^ 53) (c : ℚ)
    (hc : Dbl.roundNearest (fs.delaySumMs : ℚ) = Dbl.fin ((fs.delaySumMs : ℚ) * c)) :
    Console.delay64 fs
      = Dbl.roundNearest ((fs.delaySumMs : ℚ) * c / (fs.rxPackets : ℚ)) := by
  have hrq : (fs.rxPackets : ℚ) ≠ 0 := by exact_mod_cast hrx
  unfold Console.delay64 Console.rxPackets64 Dbl.div64 Dbl.ofInt64
  rw [Dbl.ofNat64_of_lt _ hrx53, hc, Dbl.div_fin_of_ne _ _ hrq, Dbl.fl_fin]

/-- The binary64 console delay of a flow with `0 < rxPackets < 2 ^ 32` and an
`int64_t` delay sum: the exact quotient times the factors of the two roundings. -/
theorem Console.delay64_factors (fs : FlowStats) (hrx : 0 < fs.rxPackets)
    (hrx32 : fs.rxPackets < 2 ^ 32) (hlo : -2 ^ 63 ≤ fs.delaySumMs)
    (hhi : fs.delaySumMs < 2 ^ 63) :
    ∃ c1 c2 : ℚ,
      Console.delay64 fs
        = Dbl.fin ((fs.delaySumMs : ℚ) * c1 / (fs.rxPackets : ℚ) * c2) ∧
      |c1 - 1| ≤ 1 / 2 ^ 53 ∧ |c2 - 1| ≤ 1 / 2 ^ 53 := by
  have hrq : (0 : ℚ) < (fs.rxPackets : ℚ) := by exact_mod_cast hrx
  have hrq1 : (1 : ℚ) ≤ (fs.rxPackets : ℚ) := by exact_mod_cast hrx
  have hrq2 : (fs.rxPackets : ℚ) ≤ 2 ^ 32 := by exact_mod_cast hrx32.le
  have habs : |(fs.delaySumMs : ℚ)| ≤ 2 ^ 63 := by
    rw [abs_le]
    constructor
    · exact_mod_cast hlo
    · exact_mod_cast hhi.le
  have hms : (fs.delaySumMs : ℚ) = 0 ∨ 1 ≤ |(fs.delaySumMs : ℚ)| := by
    by_cases h0 : fs.delaySumMs = 0
    · left
      exact_mod_cast h0
    · right
      have := Int.one_le_abs h0
      exact_mod_cast this
  obtain ⟨c1, hc1, hb1⟩ := Dbl.roundNearest_factor_mid (fs.delaySumMs : ℚ)
    (by
      rcases hms with h0 | h1
      · exact Or.inl h0
      · exact Or.inr ⟨le_trans (by norm_num) h1, le_trans habs (by norm_num)⟩)
  obtain ⟨l1, u1⟩ := Dbl.factor_bounds c1 hb1
  have hc1pos : 0 < c1 := lt_of_lt_of_le (by norm_num) l1
  have hc1lo : (1 : ℚ) / 2 ≤ c1 := le_trans (by norm_num) l1
  have hc1hi : c1 ≤ 2 := le_trans u1 (by norm_num)
  have hxabs : |(fs.delaySumMs : ℚ) * c1 / (fs.rxPackets : ℚ)|
      = |(fs.delaySumMs : ℚ)| * c1 / (fs.rxPackets : ℚ) := by
    rw [abs_div, abs_mul, abs_of_pos hc1pos, abs_of_pos hrq]
  obtain ⟨c2, hc2, hb2⟩ := Dbl.roundNearest_factor_mid
    ((fs.delaySumMs : ℚ) * c1 / (fs.rxPackets : ℚ))
    (by
      rcases hms with h0 | h1
      · left
        rw [h0]
        simp
      · right
        rw [hxabs]
        constructor
        · rw [le_div_iff₀ hrq]
          have h3 : (1 : ℚ) * (1 / 2) ≤ |(fs.delaySumMs : ℚ)| * c1 :=
            mul_le_mul h1 hc1lo (by norm_num) (abs_nonneg _)
          have h4 : (1 : ℚ) / 2 ^ 1000 * (fs.rxPackets : ℚ) ≤ 1 / 2 ^ 1000 * 2 ^ 32 :=
            mul_le_mul_of_nonneg_left hrq2 (by positivity)
          have h5 : (1 : ℚ) / 2 ^ 1000 * 2 ^ 32 ≤ 1 * (1 / 2) := by norm_num
          linarith
        · rw [div_le_iff₀ hrq]
          have h3 : |(fs.delaySumMs : ℚ)| * c1 ≤ 2 ^ 63 * 2 :=
            mul_le_mul habs hc1hi hc1pos.le (by positivity)
          have h4 : (2 : ℚ) ^ 1000 * 1 ≤ 2 ^ 1000 * (fs.rxPackets : ℚ) :=
            mul_le_mul_of_nonneg_left hrq1 (by positivity)
          have h5 : (2 : ℚ) ^ 63 * 2 ≤ 2 ^ 1000 * 1 := by norm_num
          linarith)
  refine ⟨c1, c2, ?_, hb1, hb2⟩
  rw [Console.delay64_eval fs (Nat.pos_iff_ne_zero.mp hrx) (lt_trans hrx32 (by norm_num)) c1 hc1,
    hc2]

/-- C6 (counterexample): for `delaySumMs = 1`, `rxPackets = 3` the console loop
derives the binary64 number `6004799503160661 / 2 ^ 54` (0.333333333333333314...),
not the exact rational quotient `1 / 3`. -/
theorem console_delay_not_exact_counterexample :
    Console.delay64 ⟨3, 3, 0, 3072, 1⟩ = Dbl.fin (6004799503160661 / 2 ^ 54) ∧
    Console.delay64 ⟨3, 3, 0, 3072, 1⟩ ≠ Dbl.fin (((1 : ℤ) : ℚ) / ((3 : ℕ) : ℚ)) ∧
    shown "  Average Delay: " (Console.block64 ⟨50, 10⟩ (fun _ => ⟨1, 2⟩) 1 ⟨3, 3, 0, 3072, 1⟩)
      = some (Item.dbl (Dbl.fin (6004799503160661 / 2 ^ 54))) := by
  have h0 : Dbl.roundNearest (((⟨3, 3, 0, 3072, 1⟩ : FlowStats).delaySumMs : ℤ) : ℚ)
      = Dbl.fin ((((⟨3, 3, 0, 3072, 1⟩ : FlowStats).delaySumMs : ℤ) : ℚ) * 1) := by
    have := Dbl.roundNearest_natCast 1 (by norm_num)
    simpa using this
  have h1 : Dbl.roundNearest (1 / 3) = Dbl.fin (6004799503160661 / 2 ^ 54) := by
    rw [Dbl.roundNearest_eq (1 / 3) (-2) 6004799503160661 (by norm_num [abs_of_pos])
      (by norm_num [abs_of_pos]) (by norm_num) (by norm_num [abs_lt]) (by norm_num [abs_lt])]
    norm_num
  have hd : Console.delay64 ⟨3, 3, 0, 3072, 1⟩ = Dbl.fin (6004799503160661 / 2 ^ 54) := by
    rw [Console.delay64_eval _ (by decide) (by norm_num) 1 h0]
    have : ((((⟨3, 3, 0, 3072, 1⟩ : FlowStats).delaySumMs : ℤ) : ℚ) * 1
        / ((⟨3, 3, 0, 3072, 1⟩ : FlowStats).rxPackets : ℚ)) = 1 / 3 := by norm_num
    rw [this, h1]
  refine ⟨hd, ?_, by rw [shown_delay64, hd]⟩
  rw [hd]
  intro h
  have hq := Dbl.fin.inj h
  norm_num at hq

/-- C6 (amended): for every flow with `0 < rxPackets` (a `uint32_t`, the delay
sum in milliseconds being an `int64_t`) the mean delay shown in its console
block is a binary64 number `v`, the rounded quotient of the converted delay sum
by `rxPackets`, within the relative error `2 ^ (-51)` of
`delaySumMs / rxPackets`. -/
theorem console_delay_binary64 (cfg : Config) (findFlow : Nat → FiveTuple) (flowId : Nat)
    (fs : FlowStats) (hrx : 0 < fs.rxPackets) (hrx32 : fs.rxPackets < 2 ^ 32)
    (hlo : -2 ^ 63 ≤ fs.delaySumMs) (hhi : fs.delaySumMs < 2 ^ 63) :
    ∃ v : ℚ, Console.delay64 fs = Dbl.fin v ∧
      |v - (fs.delaySumMs : ℚ) / (fs.rxPackets : ℚ)|
        ≤ |(fs.delaySumMs : ℚ) / (fs.rxPackets : ℚ)| / 2 ^ 51 ∧
      shown "  Average Delay: " (Console.block64 cfg findFlow flowId fs)
        = some (Item.dbl (Dbl.fin v)) := by
  obtain ⟨c1, c2, hv, hb1, hb2⟩ := Console.delay64_factors fs hrx hrx32 hlo hhi
  refine ⟨_, hv, ?_, by rw [shown_delay64, hv]⟩
  have heq : (fs.delaySumMs : ℚ) * c1 / (fs.rxPackets : ℚ) * c2
      - (fs.delaySumMs : ℚ) / (fs.rxPackets : ℚ)
      = (fs.delaySumMs : ℚ) / (fs.rxPackets : ℚ) * (c1 * c2 - 1) := by ring
  rw [heq, abs_mul, div_eq_mul_one_div |(fs.delaySumMs : ℚ) / (fs.rxPackets : ℚ)| (2 ^ 51)]
  exact mul_le_mul_of_nonneg_left (Dbl.two_factors c1 c2 hb1 hb2) (abs_nonneg _)

/-- Witness of C6 (amended): `delaySumMs = 950` and `rxPackets = 95` give a number
within `10 / 2 ^ 51` of 10; the binary64 evaluation gives exactly 10. -/
theorem console_delay_binary64_witness :
    0 < (⟨100, 95, 5, 97280, 950⟩ : FlowStats).rxPackets ∧
    (∃ v : ℚ, Console.delay64 ⟨100, 95, 5, 97280, 950⟩ = Dbl.fin v ∧ |v - 10| ≤ 10 / 2 ^ 51) ∧
    Console.delay64 ⟨100, 95, 5, 97280, 950⟩ = Dbl.fin 10 := by
  obtain ⟨v, h1, h2, _⟩ := console_delay_binary64 ⟨50, 10⟩ (fun _ => ⟨1, 2⟩) 1
    ⟨100, 95, 5, 97280, 950⟩ (by decide) (by norm_num) (by norm_num) (by norm_num)
  refine ⟨by decide, ⟨v, h1, by norm_num at h2 ⊢; exact h2⟩, ?_⟩
  have h0 : Dbl.roundNearest (((⟨100, 95, 5, 97280, 950⟩ : FlowStats).delaySumMs : ℤ) : ℚ)
      = Dbl.fin ((((⟨100, 95, 5, 97280, 950⟩ : FlowStats).delaySumMs : ℤ) : ℚ) * 1) := by
    have := Dbl.roundNearest_natCast 950 (by norm_num)
    simpa using this
  have e1 : Dbl.roundNearest 10 = Dbl.fin 10 := by
    have := Dbl.roundNearest_natCast 10 (by norm_num)
    simpa using this
  rw [Console.delay64_eval _ (by decide) (by norm_num) 1 h0]
  have : ((((⟨100, 95, 5, 97280, 950⟩ : FlowStats).delaySumMs : ℤ) : ℚ) * 1
      / ((⟨100, 95, 5, 97280, 950⟩ : FlowStats).rxPackets : ℚ)) = 10 := by norm_num
  rw [this, e1]

/-- C7: for the flow `delaySumMs = 7`, `rxPackets = 2` the console block shows the
mean delay `7/2`, while the integer division of the CSV loop gives `3`, the
sixth field of the data line; PDR and throughput agree between the two loops
for every flow. -/
theorem csv_delay_differs_from_console :
    Console.delay ⟨2, 2, 0, 2048, 7⟩ = Dbl.fin (7 / 2) ∧
    Csv.delay ⟨2, 2, 0, 2048, 7⟩ = some (Dbl.fin 3) ∧
    Csv.delay ⟨2, 2, 0, 2048, 7⟩ ≠ some (Console.delay ⟨2, 2, 0, 2048, 7⟩) ∧
    shown "  Average Delay: " (Console.block ⟨50, 10⟩ (fun _ => ⟨1, 2⟩) 1 ⟨2, 2, 0, 2048, 7⟩)
      = some (Item.dbl (Dbl.fin (7 / 2))) ∧
    (values (Csv.dataLine ⟨50, 10⟩ ⟨2, 2, 0, 2048, 7⟩))[5]? = some (Item.dbl (Dbl.fin 3)) ∧
    (∀ fs : FlowStats, Csv.pdr fs = Console.pdr fs) ∧
    (∀ (cfg : Config) (fs : FlowStats), Csv.throughput cfg fs = Console.throughput cfg fs) := by
  have hc : Console.delay ⟨2, 2, 0, 2048, 7⟩ = Dbl.fin (7 / 2) := by
    rw [Console.delay_of_rx_ne_zero _ (by decide)]
    norm_num
  have hv : Csv.delay ⟨2, 2, 0, 2048, 7⟩ = some (Dbl.fin 3) := by decide
  refine ⟨hc, hv, ?_, ?_, ?_, fun _ => rfl, fun _ _ => rfl⟩
  · rw [hc, hv]
    intro h
    have hq := Dbl.fin.inj (Option.some.inj h)
    norm_num at hq
  · rw [shown_delay, hc]
  · have hd : Dbl.ofInt (Int.tdiv 7 2) = Dbl.fin 3 := by decide
    simp [Csv.dataLine, values_line, hd]

end WifiSimple

/-! ## The results file -/

namespace WifiSimple

theorem Csv.writeFlows_of_rx_ne_zero (cfg : Config) :
    ∀ (es : List (Nat × FlowStats)) (file : List Item),
      (∀ e ∈ es, e.2.rxPackets ≠ 0) →
      Csv.writeFlows cfg file es = some (file ++ es.flatMap (fun e => Csv.dataLine cfg e.2))
  | [], file, _ => by simp [Csv.writeFlows]
  | e :: rest, file, h => by
    have he : e.2.rxPackets ≠ 0 := h e (List.mem_cons_self e rest)
    have hrest : ∀ x ∈ rest, x.2.rxPackets ≠ 0 := fun x hx => h x (List.mem_cons_of_mem e hx)
    simp only [Csv.writeFlows, Csv.writeFlow_of_rx_ne_zero cfg file e.2 he]
    rw [Csv.writeFlows_of_rx_ne_zero cfg rest _ hrest]
    simp [List.flatMap_cons]

theorem Run.step_of_complete (r : Run) (file : List Item)
    (hrx : ∀ e ∈ r.stats.entries, e.2.rxPackets ≠ 0) :
    r.step file = some ((if file = [] then [Csv.header] else file) ++ r.batch) := by
  simp only [Run.step, Csv.save, if_true, Run.batch]
  rw [Csv.writeFlows_of_rx_ne_zero r.cfg r.stats.entries _ hrx]
  by_cases hf : file = []
  · simp [hf]
  · simp [hf]

theorem runAll_of_nonempty :
    ∀ (runs : List Run) (file : List Item), file ≠ [] →
      (∀ r ∈ runs, ∀ e ∈ r.stats.entries, e.2.rxPackets ≠ 0) →
      runAll file runs = some (file ++ runs.flatMap Run.batch)
  | [], file, _, _ => by simp [runAll]
  | r :: rest, file, hf, h => by
    have hr := h r (List.mem_cons_self r rest)
    have hrest : ∀ x ∈ rest, ∀ e ∈ x.stats.entries, e.2.rxPackets ≠ 0 :=
      fun x hx => h x (List.mem_cons_of_mem r hx)
    have hstep := Run.step_of_complete r file hr
    rw [if_neg hf] at hstep
    simp only [runAll, hstep]
    rw [runAll_of_nonempty rest (file ++ r.batch) (by simp [hf]) hrest]
    simp [List.flatMap_cons]

theorem Csv.header_not_mem_dataLine (cfg : Config) (fs : FlowStats) :
    Csv.header ∉ Csv.dataLine cfg fs := by
  simp [Csv.header, Csv.dataLine, Csv.line]

theorem Csv.header_not_mem_batches (runs : List Run) :
    Csv.header ∉ runs.flatMap Run.batch := by
  intro h
  rcases List.mem_flatMap.mp h with ⟨r, _, hr⟩
  rcases List.mem_flatMap.mp hr with ⟨e, _, he⟩
  exact Csv.header_not_mem_dataLine r.cfg e.2 he

/-- Header-once property of the runs in which every integer division of the
CSV loop is defined: for every sequence of `N ≥ 1` runs with any number of
flows, none of them with `rxPackets = 0`, applied to an initially empty file,
the contents are one header line followed by the batches of data lines of the
runs in run order, and the header occurs nowhere in the batches; such a run
applied to a non-empty file appends its batch to the unchanged contents and
writes no header. -/
theorem header_once (runs : List Run) (hN : 1 ≤ runs.length)
    (hok : ∀ r ∈ runs, ∀ e ∈ r.stats.entries, e.2.rxPackets ≠ 0) :
    runAll [] runs = some (Csv.header :: runs.flatMap Run.batch) ∧
    Csv.header ∉ runs.flatMap Run.batch ∧
    (∀ (r : Run) (file : List Item), r ∈ runs → file ≠ [] →
      r.step file = some (file ++ r.batch) ∧ Csv.header ∉ r.batch) := by
  refine ⟨?_, Csv.header_not_mem_batches runs, ?_⟩
  · cases runs with
    | nil => simp at hN
    | cons r rest =>
      have hr := hok r (List.mem_cons_self r rest)
      have hrest : ∀ x ∈ rest, ∀ e ∈ x.stats.entries, e.2.rxPackets ≠ 0 :=
        fun x hx => hok x (List.mem_cons_of_mem r hx)
      have hstep := Run.step_of_complete r [] hr
      rw [if_pos rfl] at hstep
      simp only [runAll, hstep]
      rw [runAll_of_nonempty rest _ (by simp) hrest]
      simp [List.flatMap_cons]
  · intro r file hmem hf
    have hr := hok r hmem
    have hstep := Run.step_of_complete r file hr
    rw [if_neg hf] at hstep
    refine ⟨hstep, ?_⟩
    intro h
    rcases List.mem_flatMap.mp h with ⟨e, _, he⟩
    exact Csv.header_not_mem_dataLine r.cfg e.2 he

/-- Instance of `header_once`: a run without flows followed by a run with two
flows. -/
theorem header_once_witness :
    runAll []
      [⟨⟨50, 10⟩, ⟨[], List.Pairwise.nil⟩⟩,
       ⟨⟨60, 10⟩, ⟨[(1, ⟨100, 95, 5, 97280, 950⟩), (2, ⟨2, 2, 0, 2048, 7⟩)], by simp⟩⟩]
      = some (Csv.header ::
          (Csv.dataLine ⟨60, 10⟩ ⟨100, 95, 5, 97280, 950⟩
            ++ Csv.dataLine ⟨60, 10⟩ ⟨2, 2, 0, 2048, 7⟩)) := by
  have h := header_once
    [⟨⟨50, 10⟩, ⟨[], List.Pairwise.nil⟩⟩,
     ⟨⟨60, 10⟩, ⟨[(1, ⟨100, 95, 5, 97280, 950⟩), (2, ⟨2, 2, 0, 2048, 7⟩)], by simp⟩⟩]
    (by decide) (by decide)
  simpa [Run.batch] using h.1

/-- C8: a single run whose only flow has `txPackets = 10`, `rxPackets = 0`,
applied to the empty results file, has no defined resulting contents: after the
header is inserted, the integer division of the CSV loop by `rxPackets = 0` is
undefined before the data line of the flow is written.  The same holds for
this run on a file that already holds the header, and for this run after a
run without flows. -/
theorem header_once_undefined_when_nothing_received :
    Run.step [] ⟨⟨50, 10⟩, ⟨[(1, ⟨10, 0, 0, 0, 0⟩)], by simp⟩⟩ = none ∧
    runAll [] [⟨⟨50, 10⟩, ⟨[(1, ⟨10, 0, 0, 0, 0⟩)], by simp⟩⟩] = none ∧
    Run.step [Csv.header] ⟨⟨50, 10⟩, ⟨[(1, ⟨10, 0, 0, 0, 0⟩)], by simp⟩⟩ = none ∧
    runAll [] [⟨⟨50, 10⟩, ⟨[], List.Pairwise.nil⟩⟩,
               ⟨⟨50, 10⟩, ⟨[(1, ⟨10, 0, 0, 0, 0⟩)], by simp⟩⟩] = none := by
  refine ⟨?_, ?_, ?_, ?_⟩
  · simp [Run.step, Csv.save, Csv.writeFlows, Csv.writeFlow, Csv.delay]
  · simp [runAll, Run.step, Csv.save, Csv.writeFlows, Csv.writeFlow, Csv.delay]
  · simp [Run.step, Csv.save, Csv.writeFlows, Csv.writeFlow, Csv.delay, Csv.header]
  · simp [runAll, Run.step, Csv.save, Csv.writeFlows, Csv.writeFlow, Csv.delay, Csv.header]

end WifiSimple

/-! ## Reported counts and the layout of the CSV record -/

namespace WifiSimple

/-- C9 (counterexample): for the flow `txPackets = 10`, `rxPackets = 0`,
`lostPackets = 0` the values of the console block are the flow id, the two
addresses, the counts 10, 0, 0 and the three derived metrics: no undetermined
count is among them.  For the flow `txPackets = 10`, `rxPackets = 3`,
`lostPackets = 2` the surplus is 5 and no value of the block equals 5. -/
theorem undetermined_not_reported_counterexample :
    values (Console.block ⟨50, 10⟩ (fun _ => ⟨167837953, 167837954⟩) 1 ⟨10, 0, 0, 0, 0⟩)
      = [Item.u32 1, Item.addr 167837953, Item.addr 167837954,
         Item.dbl (Dbl.fin 10), Item.dbl (Dbl.fin 0), Item.dbl (Dbl.fin 0),
         Item.dbl (Dbl.fin 0), Item.dbl (Dbl.fin 0), Item.dbl Dbl.nan] ∧
    ((⟨10, 3, 2, 3072, 30⟩ : FlowStats).txPackets : Int)
      - (⟨10, 3, 2, 3072, 30⟩ : FlowStats).rxPackets
      - (⟨10, 3, 2, 3072, 30⟩ : FlowStats).lostPackets = 5 ∧
    Item.dbl (Dbl.fin 5)
      ∉ Console.block ⟨50, 10⟩ (fun _ => ⟨167837953, 167837954⟩) 1 ⟨10, 3, 2, 3072, 30⟩ ∧
    Item.u32 5
      ∉ Console.block ⟨50, 10⟩ (fun _ => ⟨167837953, 167837954⟩) 1 ⟨10, 3, 2, 3072, 30⟩ := by
  have hp0 : Console.pdr ⟨10, 0, 0, 0, 0⟩ = Dbl.fin 0 := by
    rw [Console.pdr_of_tx_ne_zero _ (by decide)]
    norm_num
  have ht0 : Console.throughput ⟨50, 10⟩ ⟨10, 0, 0, 0, 0⟩ = Dbl.fin 0 := by
    rw [Console.throughput_of_ne_one _ _ (by norm_num)]
    norm_num
  have hd0 : Console.delay ⟨10, 0, 0, 0, 0⟩ = Dbl.nan := by
    simp [Console.delay, Console.rxPackets, Dbl.ofNat, Dbl.ofInt, Dbl.div]
  have hp : Console.pdr ⟨10, 3, 2, 3072, 30⟩ = Dbl.fin 30 := by
    rw [Console.pdr_of_tx_ne_zero _ (by decide)]
    norm_num
  have ht : Console.throughput ⟨50, 10⟩ ⟨10, 3, 2, 3072, 30⟩ = Dbl.fin (1024 / 375) := by
    rw [Console.throughput_of_ne_one _ _ (by norm_num)]
    norm_num
  have hd : Console.delay ⟨10, 3, 2, 3072, 30⟩ = Dbl.fin 10 := by
    rw [Console.delay_of_rx_ne_zero _ (by decide)]
    norm_num
  refine ⟨?_, by decide, ?_, ?_⟩
  · simp [values, Console.block, hp0, ht0, hd0, Console.txPackets, Console.rxPackets,
      Console.lostPackets, Dbl.ofNat]
  · simp [Console.block, hp, ht, hd, Console.txPackets, Console.rxPackets,
      Console.lostPackets, Dbl.ofNat]
    norm_num
  · simp [Console.block]

/-- C9 (amended): for every flow the console block reports, after the flow id
and the two addresses, exactly the three counts `txPackets`, `rxPackets`,
`lostPackets` as read from the flow statistics, followed by PDR, throughput and
mean delay; the reported counts satisfy `rxPackets + lostPackets = txPackets`
exactly when the surplus `txPackets - rxPackets - lostPackets` is zero. -/
theorem report_gives_three_counts (cfg : Config) (findFlow : Nat → FiveTuple) (flowId : Nat)
    (fs : FlowStats) :
    values (Console.block cfg findFlow flowId fs)
      = [Item.u32 flowId, Item.addr (findFlow flowId).sourceAddress,
         Item.addr (findFlow flowId).destinationAddress,
         Item.dbl (Dbl.fin (fs.txPackets : ℚ)), Item.dbl (Dbl.fin (fs.rxPackets : ℚ)),
         Item.dbl (Dbl.fin (fs.lostPackets : ℚ)),
         Item.dbl (Console.pdr fs), Item.dbl (Console.throughput cfg fs),
         Item.dbl (Console.delay fs)] ∧
    shown "  Tx Packets: " (Console.block cfg findFlow flowId fs)
      = some (Item.dbl (Dbl.fin (fs.txPackets : ℚ))) ∧
    shown "  Rx Packets: " (Console.block cfg findFlow flowId fs)
      = some (Item.dbl (Dbl.fin (fs.rxPackets : ℚ))) ∧
    shown "  Lost Packets: " (Console.block cfg findFlow flowId fs)
      = some (Item.dbl (Dbl.fin (fs.lostPackets : ℚ))) ∧
    ((fs.rxPackets : ℚ) + (fs.lostPackets : ℚ) = (fs.txPackets : ℚ) ↔
      (fs.txPackets : Int) - (fs.rxPackets : Int) - (fs.lostPackets : Int) = 0) := by
  refine ⟨?_, ?_, ?_, ?_, ?_⟩
  · simp [values, Console.block, Console.txPackets, Console.rxPackets, Console.lostPackets,
      Dbl.ofNat]
  · simp [shown, Console.block, Console.txPackets, Dbl.ofNat]
  · simp [shown, Console.block, Console.rxPackets, Dbl.ofNat]
  · simp [shown, Console.block, Console.lostPackets, Dbl.ofNat]
  · constructor
    · intro h
      have h2 : fs.rxPackets + fs.lostPackets = fs.txPackets := by exact_mod_cast h
      omega
    · intro h
      have h2 : fs.rxPackets + fs.lostPackets = fs.txPackets := by omega
      exact_mod_cast h2

end WifiSimple
